import Mathlib

/-!
# Verification of the minigame-bingo-sim draw engine

Shallow embedding of the bingo draw engine (`src/game.ts`, `src/bonus.ts`,
`src/statistics.ts`, plus the earlier variant of the engine kept in the
repository) and proofs of the specification claims about it.

Randomness (`Math.random()`) is modelled by explicit oracle parameters:
every random pick made by the source is driven by a value supplied by the
oracle, so a theorem quantified over all oracles covers every possible run
of the program, and a concrete oracle gives a concrete executable run.
-/

namespace BingoSim

/-- `CellState` from `types.ts`: one cell of the 5×5 card. -/
structure Cell where
  number : Nat
  isActive : Bool
  isFree : Bool
  isReach : Bool
  isLine : Bool
deriving DecidableEq, Repr

/-- Default cell used for (unreachable) out-of-range reads. -/
def defaultCell : Cell := ⟨0, false, false, false, false⟩

/-- `BingoCard` from `types.ts`: ordered sequence of cells. -/
abbrev BingoCard := List Cell

/-- Read the cell at index `i` (JS `card[i]`, defaulting when out of range). -/
def cardAt (c : BingoCard) (i : Nat) : Cell := c.getD i defaultCell

/-- In-place mutation of the cell object at index `i` (JS `card[i].f = v`).
Out-of-range writes are no-ops (they never happen on a 25-cell card). -/
def modifyCell : BingoCard → Nat → (Cell → Cell) → BingoCard
  | [], _, _ => []
  | c :: cs, 0, f => f c :: cs
  | c :: cs, n + 1, f => c :: modifyCell cs n f

/-- `FREE_CELL_NUMBER` from `types.ts`. -/
def FREE_CELL_NUMBER : Nat := 13

/-- `FREE_CELL_INDEX` from `types.ts`. -/
def FREE_CELL_INDEX : Nat := 12

/-- `ALL_LINES` from `types.ts`: 5 columns, 5 rows, 2 diagonals. -/
def ALL_LINES : List (List Nat) :=
  [[0, 1, 2, 3, 4],
   [5, 6, 7, 8, 9],
   [10, 11, 12, 13, 14],
   [15, 16, 17, 18, 19],
   [20, 21, 22, 23, 24],
   [0, 5, 10, 15, 20],
   [1, 6, 11, 16, 21],
   [2, 7, 12, 17, 22],
   [3, 8, 13, 18, 23],
   [4, 9, 14, 19, 24],
   [0, 6, 12, 18, 24],
   [4, 8, 12, 16, 20]]

/-! ## Basic lemmas about the card primitives -/

theorem length_modifyCell (c : BingoCard) (i : Nat) (f : Cell → Cell) :
    (modifyCell c i f).length = c.length := by
  induction c generalizing i with
  | nil => rfl
  | cons hd tl ih =>
    cases i with
    | zero => rfl
    | succ n => simp [modifyCell, ih]

theorem cardAt_modifyCell_self (c : BingoCard) (i : Nat) (f : Cell → Cell)
    (h : i < c.length) : cardAt (modifyCell c i f) i = f (cardAt c i) := by
  induction c generalizing i with
  | nil => simp at h
  | cons hd tl ih =>
    cases i with
    | zero => simp [modifyCell, cardAt, List.getD]
    | succ n =>
      simp only [modifyCell, cardAt, List.getD] at *
      exact ih n (by simpa using h)

theorem cardAt_modifyCell_ne (c : BingoCard) (i j : Nat) (f : Cell → Cell)
    (h : j ≠ i) : cardAt (modifyCell c i f) j = cardAt c j := by
  induction c generalizing i j with
  | nil => rfl
  | cons hd tl ih =>
    cases i with
    | zero =>
      cases j with
      | zero => exact absurd rfl h
      | succ m => simp [modifyCell, cardAt, List.getD]
    | succ n =>
      cases j with
      | zero => simp [modifyCell, cardAt, List.getD]
      | succ m =>
        simp only [modifyCell, cardAt, List.getD] at *
        exact ih n m (fun hnm => h (by simpa using hnm))

theorem modifyCell_oob (c : BingoCard) (i : Nat) (f : Cell → Cell)
    (h : c.length ≤ i) : modifyCell c i f = c := by
  induction c generalizing i with
  | nil => rfl
  | cons hd tl ih =>
    cases i with
    | zero => simp at h
    | succ n => simp only [modifyCell]; rw [ih n (by simpa using h)]

theorem cardAt_oob (c : BingoCard) (i : Nat) (h : c.length ≤ i) :
    cardAt c i = defaultCell := by
  simp [cardAt, List.getD, List.getElem?_eq_none (by simpa using h)]

theorem length_map_cells (c : BingoCard) (f : Cell → Cell) :
    (c.map f).length = c.length := by simp

theorem cardAt_map (c : BingoCard) (f : Cell → Cell) (i : Nat) (h : i < c.length) :
    cardAt (c.map f) i = f (cardAt c i) := by
  induction c generalizing i with
  | nil => simp at h
  | cons hd tl ih =>
    cases i with
    | zero => simp [cardAt, List.getD]
    | succ n =>
      simp only [List.map, cardAt, List.getD] at *
      exact ih n (by simpa using h)

theorem getD_mem {α : Type} (l : List α) (n : Nat) (d : α) (h : n < l.length) :
    l.getD n d ∈ l := by
  rw [List.getD_eq_getElem l d h]
  exact l.getElem_mem h

/-! ## Card-level operations of `game.ts` (shared by both engine variants) -/

/-- `createInitialCard`: 25 cells numbered 1..25, only number 13 active/free. -/
def createInitialCard : BingoCard :=
  (List.range 25).map (fun i =>
    { number := i + 1
      isActive := decide (i + 1 = FREE_CELL_NUMBER)
      isFree := decide (i + 1 = FREE_CELL_NUMBER)
      isReach := false
      isLine := false })

/-- `resetLineStatus`: deactivate last round's line cells (free cell exempt)
and clear every `isLine` mark. -/
def resetLineStatus (c : BingoCard) : BingoCard :=
  c.map (fun cell =>
    if cell.isLine && !cell.isFree then { cell with isActive := false, isLine := false }
    else { cell with isLine := false })

/-- One line's active members. -/
def lineActives (c : BingoCard) (line : List Nat) : List Nat :=
  line.filter (fun i => (cardAt c i).isActive)

/-- One line's inactive members. -/
def lineInactives (c : BingoCard) (line : List Nat) : List Nat :=
  line.filter (fun i => (cardAt c i).isActive = false)

/-- Mark every member of `line` with `isReach := true`. -/
def markReach (c : BingoCard) (line : List Nat) : BingoCard :=
  line.foldl (fun acc i => modifyCell acc i (fun cell => { cell with isReach := true })) c

/-- `updateReachStatus`: clear all `isReach`, then mark every line with
exactly 4 active and 1 inactive member. -/
def updateReachStatus (c : BingoCard) : BingoCard :=
  let cleared := c.map (fun cell => { cell with isReach := false })
  ALL_LINES.foldl
    (fun acc line =>
      if (lineActives acc line).length = 4 && (lineInactives acc line).length = 1 then
        markReach acc line
      else acc)
    cleared

/-- `hasReachCells`: some cell is marked reach and still inactive. -/
def hasReachCells (c : BingoCard) : Bool :=
  c.any (fun cell => cell.isReach && !cell.isActive)

/-- `wouldCompleteLine`: activating `targetIndex` would complete a line. -/
def wouldCompleteLine (c : BingoCard) (targetIndex : Nat) : Bool :=
  ALL_LINES.any (fun line =>
    line.contains targetIndex && (lineActives c line).length = 4)

/-- Mark every member of `line` with `isLine := true`. -/
def markLine (c : BingoCard) (line : List Nat) : BingoCard :=
  line.foldl (fun acc i => modifyCell acc i (fun cell => { cell with isLine := true })) c

/-- `Set.add` for the `lineNumbersSet` accumulator (JS `Set` keeps insertion
order and ignores duplicates). -/
def addNum (s : List Nat) (n : Nat) : List Nat :=
  if s.contains n then s else s ++ [n]

/-- Ascending insertion sort used to model JS `sort((a, b) => a - b)`. -/
def insertAsc (n : Nat) : List Nat → List Nat
  | [] => [n]
  | m :: ms => if n ≤ m then n :: m :: ms else m :: insertAsc n ms

/-- Ascending sort of a list of numbers. -/
def sortAsc (l : List Nat) : List Nat := l.foldr insertAsc []

/-- A line is complete when all 5 members are active. -/
def lineComplete (c : BingoCard) (line : List Nat) : Bool :=
  line.all (fun i => (cardAt c i).isActive)

/-- The (indices of the) currently complete lines. -/
def completeLines (c : BingoCard) : List (List Nat) :=
  ALL_LINES.filter (fun line => lineComplete c line)

/-- Loop body of `checkLines` over the remaining lines. -/
def checkLinesAux : List (List Nat) → BingoCard → Nat → List Nat →
    BingoCard × Nat × List Nat
  | [], c, cnt, nums => (c, cnt, nums)
  | line :: rest, c, cnt, nums =>
    if lineComplete c line then
      checkLinesAux rest (markLine c line) (cnt + 1)
        (line.foldl (fun s i => addNum s (cardAt c i).number) nums)
    else
      checkLinesAux rest c cnt nums

/-- `checkLines`: mark complete lines, count them, and collect the sorted
deduplicated numbers of their member cells. -/
def checkLines (c : BingoCard) : BingoCard × Nat × List Nat :=
  let (c', cnt, nums) := checkLinesAux ALL_LINES c 0 []
  (c', cnt, sortAsc nums)

/-- `getScore` (current engine): non-linear score table. -/
def getScore (linesCompleted : Nat) : Nat :=
  if linesCompleted = 0 then 0
  else if linesCompleted = 1 then 1
  else if linesCompleted = 2 then 3
  else if linesCompleted = 3 then 10
  else if linesCompleted = 4 then 50
  else 200

/-- Candidates of the reach-ensuring loop: inactive cells whose activation
would not complete a line, in card order. -/
def eligibleIndices (c : BingoCard) : List Nat :=
  (List.range c.length).filter
    (fun i => (cardAt c i).isActive = false && !wouldCompleteLine c i)

/-- Activate the cell object at index `i`. -/
def setActiveAt (c : BingoCard) (i : Nat) : BingoCard :=
  modifyCell c i (fun cell => { cell with isActive := true })

/-- The `while` loop of `ensureReachBeforeDraw`; `fuel` is the remaining
attempt budget, `k` the number of iterations performed so far (it also
indexes the oracle).  Returns the card and the final attempt count. -/
def ensureReachLoop (o : Nat → Nat) : Nat → BingoCard → Nat → BingoCard × Nat
  | 0, c, k => (c, k)
  | fuel + 1, c, k =>
    if hasReachCells c then (c, k)
    else if (eligibleIndices c).length = 0 then (c, k)
    else
      ensureReachLoop o fuel
        (updateReachStatus (setActiveAt c
          ((eligibleIndices c).getD (o k % (eligibleIndices c).length) 0))) (k + 1)

/-- `ensureReachBeforeDraw`: refresh reach marks, then repeatedly activate a
random eligible cell until a reach line exists, with at most `card.length`
iterations.  Also returns the loop's attempt counter. -/
def ensureReachBeforeDraw (o : Nat → Nat) (c : BingoCard) : BingoCard × Nat :=
  ensureReachLoop o c.length (updateReachStatus c) 0

/-- Count of active cells (`card.filter(c => c.isActive).length`). -/
def activeCount (c : BingoCard) : Nat :=
  (c.filter (fun cell => cell.isActive)).length

/-! ## Bonus subsystem (`bonus.ts`, plus the earlier variant's handlers)

`BonusType` is the union of the kinds appearing in the two variants of
`bonus.ts`.  (The current `types.ts` is not among the source files; the
kind names are taken from their uses in `bonus.ts`.) -/

inductive BonusType where
  | UNLOCK_RANDOM_ONE
  | RANDOM_THREE_WITH_MISS
  | ACTIVATE_RANDOM_ONE
  | ACTIVATE_RANDOM_TWO
  | ACTIVATE_RANDOM_FOUR
  | ACTIVATE_RANDOM_EIGHT
  | ACTIVATE_BOX
  | ACTIVATE_VERTICAL
  | ACTIVATE_HORIZONTAL
  | ACTIVATE_CROSS
  | ACTIVATE_X_DIAGONAL
  | ACTIVATE_COLUMN_LINE
  | ACTIVATE_ROW_LINE
deriving DecidableEq, Repr

/-- `isBonusTriggerNumber`: drawing 13 queues a bonus. -/
def isBonusTriggerNumber (n : Nat) : Bool := n = FREE_CELL_NUMBER

/-- `activateCell` from `bonus.ts`: activate one cell unless it is missing
or already active; return the activated number. -/
def activateCell (c : BingoCard) (i : Nat) : BingoCard × Option Nat :=
  if i < c.length then
    if (cardAt c i).isActive then (c, none)
    else (setActiveAt c i, some (cardAt c i).number)
  else (c, none)

/-- The `for (const index of targets)` loop shared by the handlers:
activate each target in order, collecting the numbers actually activated. -/
def activateTargets : BingoCard → List Nat → BingoCard × List Nat
  | c, [] => (c, [])
  | c, t :: ts =>
    ((activateTargets (activateCell c t).1 ts).1,
     match (activateCell c t).2 with
     | some n => n :: (activateTargets (activateCell c t).1 ts).2
     | none => (activateTargets (activateCell c t).1 ts).2)

/-- Same loop over possibly negative indices (the box bonus computes its
neighbour offsets without bounds checks; JS reads `cells[-1]` as missing). -/
def activateTargetsInt (c : BingoCard) (ts : List Int) : BingoCard × List Nat :=
  activateTargets c (ts.map (fun t => if t < 0 then c.length else t.toNat))

/-- `getBaseIndex`: 0-based index of the base number; `null` when the base
number is absent, zero (falsy in JS) or out of range. -/
def getBaseIndex (baseNumber : Option Nat) : Option Nat :=
  match baseNumber with
  | none => none
  | some n =>
    if n = 0 then none
    else if n - 1 < 25 then some (n - 1) else none

/-- `getRowCol`: the transposed 5×5 convention (`row = index % 5`,
`col = index / 5`). -/
def rowOf (i : Nat) : Nat := i % 5
def colOf (i : Nat) : Nat := i / 5

/-- Targets of `ActivateVerticalBonus`. -/
def verticalTargets (b : Nat) : List Nat :=
  (if rowOf b > 0 then [b - 1] else []) ++ (if rowOf b < 4 then [b + 1] else [])

/-- Targets of `ActivateHorizontalBonus`. -/
def horizontalTargets (b : Nat) : List Nat :=
  (if colOf b > 0 then [b - 5] else []) ++ (if colOf b < 4 then [b + 5] else [])

/-- Targets of `ActivateCrossBonus`. -/
def crossTargets (b : Nat) : List Nat :=
  verticalTargets b ++ horizontalTargets b

/-- Targets of `ActivateXDiagonalBonus`. -/
def xDiagonalTargets (b : Nat) : List Nat :=
  (if rowOf b > 0 && colOf b > 0 then [b - 6] else []) ++
  (if rowOf b < 4 && colOf b > 0 then [b - 4] else []) ++
  (if rowOf b > 0 && colOf b < 4 then [b + 4] else []) ++
  (if rowOf b < 4 && colOf b < 4 then [b + 6] else [])

/-- Targets of `ActivateBoxBonus` (no bounds checks in the source). -/
def boxTargets (b : Nat) : List Int :=
  [-6, -5, -4, -1, 1, 4, 5, 6].map (fun d => (b : Int) + d)

/-- Targets of `ActivateColumnLineBonus`: the whole column of the base. -/
def columnLineTargets (b : Nat) : List Nat :=
  (List.range 5).map (fun r => colOf b * 5 + r)

/-- Targets of `ActivateRowLineBonus`: the whole row of the base. -/
def rowLineTargets (b : Nat) : List Nat :=
  (List.range 5).map (fun cl => cl * 5 + rowOf b)

/-- Model of the `shuffle` in `bonus.ts`
(`[...items].sort(() => Math.random() - 0.5)`), whose result is an
unspecified permutation: the oracle picks which element comes next. -/
def oracleShuffleAux (o : Nat → Nat) : Nat → List Nat → List Nat
  | 0, _ => []
  | _, [] => []
  | fuel + 1, l =>
    let k := o fuel % l.length
    l.getD k 0 :: oracleShuffleAux o fuel (l.eraseIdx k)

/-- Oracle-driven permutation of an index list. -/
def oracleShuffle (o : Nat → Nat) (l : List Nat) : List Nat :=
  oracleShuffleAux o l.length l

/-- Shared body of the `ActivateRandomBonusBase` variants: shuffle the
non-free cells and activate the first `count` of them. -/
def randomBase (o : Nat → Nat) (c : BingoCard) (count : Nat) : BingoCard × List Nat :=
  let pickable := (List.range c.length).filter (fun i => (cardAt c i).isFree = false)
  let picked := (oracleShuffle o pickable).take (min count pickable.length)
  activateTargets c picked

/-- Dispatch on a directional/line handler given the base number. -/
def baseTargetsHandler (c : BingoCard) (base : Option Nat)
    (targets : Nat → List Nat) : BingoCard × List Nat :=
  match getBaseIndex base with
  | none => (c, [])
  | some b => activateTargets c (targets b)

/-- `BonusHandler.execute` for every kind, with the oracle driving the
random choices. -/
def execHandler (o : Nat → Nat) (t : BonusType) (c : BingoCard)
    (base : Option Nat) : BingoCard × List Nat :=
  match t with
  | .UNLOCK_RANDOM_ONE =>
    let inact := (List.range c.length).filter
      (fun i => (cardAt c i).isActive = false && (cardAt c i).isFree = false)
    if inact.length = 0 then (c, [])
    else
      let i := inact.getD (o 0 % inact.length) 0
      let (c', r) := activateCell c i
      (c', match r with | some n => [n] | none => [])
  | .RANDOM_THREE_WITH_MISS =>
    let perm := oracleShuffle o (List.range c.length)
    activateTargets c (perm.take (min 3 c.length))
  | .ACTIVATE_RANDOM_ONE => randomBase o c 1
  | .ACTIVATE_RANDOM_TWO => randomBase o c 2
  | .ACTIVATE_RANDOM_FOUR => randomBase o c 4
  | .ACTIVATE_RANDOM_EIGHT => randomBase o c 8
  | .ACTIVATE_BOX =>
    match getBaseIndex base with
    | none => (c, [])
    | some b => activateTargetsInt c (boxTargets b)
  | .ACTIVATE_VERTICAL => baseTargetsHandler c base verticalTargets
  | .ACTIVATE_HORIZONTAL => baseTargetsHandler c base horizontalTargets
  | .ACTIVATE_CROSS => baseTargetsHandler c base crossTargets
  | .ACTIVATE_X_DIAGONAL => baseTargetsHandler c base xDiagonalTargets
  | .ACTIVATE_COLUMN_LINE => baseTargetsHandler c base columnLineTargets
  | .ACTIVATE_ROW_LINE => baseTargetsHandler c base rowLineTargets

/-- Registration order of `createDefaultBonusRegistry` (current variant). -/
def registryOrder : List BonusType :=
  [.UNLOCK_RANDOM_ONE, .RANDOM_THREE_WITH_MISS, .ACTIVATE_VERTICAL,
   .ACTIVATE_HORIZONTAL, .ACTIVATE_CROSS, .ACTIVATE_X_DIAGONAL,
   .ACTIVATE_COLUMN_LINE, .ACTIVATE_ROW_LINE]

/-- Registration order of `createDefaultBonusRegistry` (earlier variant). -/
def legacyRegistryOrder : List BonusType :=
  [.ACTIVATE_RANDOM_ONE, .ACTIVATE_RANDOM_TWO, .ACTIVATE_RANDOM_FOUR,
   .ACTIVATE_RANDOM_EIGHT, .ACTIVATE_BOX, .ACTIVATE_VERTICAL,
   .ACTIVATE_HORIZONTAL, .ACTIVATE_CROSS, .ACTIVATE_X_DIAGONAL,
   .ACTIVATE_COLUMN_LINE, .ACTIVATE_ROW_LINE]

/-- `BonusRegistry.get`: the handler for a kind, `undefined` when absent.
Handlers are stateless, so a registry entry is identified by its kind. -/
def registryGet (reg : List BonusType) (t : BonusType) : Option BonusType :=
  if reg.contains t then some t else none

/-! ## Board randomization (`randomizeBoardActiveState`, both variants) -/

/-- Swap the entries at positions `i` and `j`. -/
def listSwap (l : List Nat) (i j : Nat) : List Nat :=
  match l.get? i, l.get? j with
  | some a, some b => (l.set i b).set j a
  | _, _ => l

/-- The in-place Fisher–Yates `shuffle` of `game.ts`, from position `i`
downwards; the oracle supplies each `Math.random()` draw. -/
def fisherYatesAux (o : Nat → Nat) : List Nat → Nat → List Nat
  | l, 0 => l
  | l, i + 1 => fisherYatesAux o (listSwap l (i + 1) (o (i + 1) % (i + 2))) i

/-- `shuffle` from `game.ts`. -/
def fisherYates (o : Nat → Nat) (l : List Nat) : List Nat :=
  fisherYatesAux o l (l.length - 1)

/-- `resetBoard` inside `randomizeBoardActiveState`: only the free cell
stays active; reach and line marks are cleared. -/
def resetBoard (c : BingoCard) : BingoCard :=
  c.map (fun cell =>
    { cell with isActive := cell.isFree, isLine := false, isReach := false })

/-- The activation loop of `fillRandomly`: activate shuffled candidates,
skipping any whose activation would complete a line, until the budget is
spent. -/
def fillLoop : BingoCard → List Nat → Nat → BingoCard
  | c, _, 0 => c
  | c, [], _ + 1 => c
  | c, i :: rest, r + 1 =>
    if wouldCompleteLine c i then fillLoop c rest (r + 1)
    else fillLoop (setActiveAt c i) rest r

/-- `fillRandomly`: shuffle the non-free cells and activate up to
`targetActiveCount - 1 = 12` of them without completing a line. -/
def fillRandomly (o : Nat → Nat) (c : BingoCard) : BingoCard :=
  let pickable := (List.range c.length).filter (fun i => (cardAt c i).isFree = false)
  fillLoop c (fisherYates o pickable) (min 12 pickable.length)

/-- One entry of the `lineStates` array inside `tryForceReach`. -/
structure LineState where
  line : List Nat
  activeIdx : List Nat
  inactiveIdx : List Nat

/-- `lineStates`: per line, its active and inactive members. -/
def lineStates (c : BingoCard) : List LineState :=
  ALL_LINES.map (fun line => ⟨line, lineActives c line, lineInactives c line⟩)

/-- Active non-free cells outside the given line. -/
def outsideActives (c : BingoCard) (line : List Nat) : List Nat :=
  (List.range c.length).filter (fun i =>
    (cardAt c i).isActive && !(cardAt c i).isFree && !line.contains i)

/-- Perform the swap: activate `toOn`, then deactivate `toOff`. -/
def applySwap (c : BingoCard) (toOn toOff : List Nat) : BingoCard :=
  let c1 := toOn.foldl setActiveAt c
  toOff.foldl (fun acc i => modifyCell acc i (fun cell => { cell with isActive := false })) c1

/-- Oracle streams used by one `randomizeBoardActiveState` call. -/
structure RandomizeOracle where
  fill : Nat → Nat → Nat
  swapCand : Bool → Nat → Nat
  swapOut : Bool → Nat → Nat → Nat
  swapIn : Bool → Nat → Nat → Nat

/-- Candidate loop of `trySwap`: for each shuffled candidate line, if enough
active cells exist outside it, swap activation into the line and return. -/
def trySwapLoop (oOut oIn : Nat → Nat → Nat) (c : BingoCard)
    (candidates : List LineState) (activationCount : Nat) :
    List Nat → Nat → Option BingoCard
  | [], _ => none
  | ci :: rest, pos =>
    let cand := candidates.getD ci ⟨[], [], []⟩
    let outs := outsideActives c cand.line
    if outs.length < activationCount then
      trySwapLoop oOut oIn c candidates activationCount rest (pos + 1)
    else
      let outsSh := fisherYates (oOut pos) outs
      let inSh := fisherYates (oIn pos) cand.inactiveIdx
      some (applySwap c (inSh.take activationCount) (outsSh.take activationCount))

/-- `trySwap(activeCount, activationCount)` inside `tryForceReach`. -/
def trySwapPhase (o : RandomizeOracle) (phase : Bool) (c : BingoCard)
    (activeCnt activationCount : Nat) : Option BingoCard :=
  let candidates := (lineStates c).filter (fun st =>
    st.activeIdx.length = activeCnt && activationCount ≤ st.inactiveIdx.length)
  let candIdx := fisherYates (o.swapCand phase) (List.range candidates.length)
  trySwapLoop (o.swapOut phase) (o.swapIn phase) c candidates activationCount candIdx 0

/-- `tryForceReach`: first a 3-active/1-needed swap, then 2-active/2-needed. -/
def tryForceReach (o : RandomizeOracle) (c : BingoCard) : Option BingoCard :=
  match trySwapPhase o false c 3 1 with
  | some c' => some c'
  | none => trySwapPhase o true c 2 2

/-- The bounded attempt loop of `randomizeBoardActiveState`: rebuild the
board until reach cells appear (`true`) or attempts run out (`false`). -/
def rzStep (o : RandomizeOracle) (c : BingoCard) (k : Nat) : BingoCard :=
  updateReachStatus (fillRandomly (o.fill k) (resetBoard c))

def randomizeAttempts (o : RandomizeOracle) : BingoCard → Nat → Nat → BingoCard × Bool
  | c, _, 0 => (c, false)
  | c, k, n + 1 =>
    if hasReachCells (rzStep o c k) then (rzStep o c k, true)
    else randomizeAttempts o (rzStep o c k) (k + 1) n

/-- `randomizeBoardActiveState` (current variant): bounded random rebuilds,
then a forced swap if no reach line appeared. -/
def randomizeBoardActiveState (o : RandomizeOracle) (c : BingoCard) : BingoCard :=
  if (randomizeAttempts o c 0 12).2 then (randomizeAttempts o c 0 12).1
  else
    match tryForceReach o (randomizeAttempts o c 0 12).1 with
    | some c2 => updateReachStatus c2
    | none => (randomizeAttempts o c 0 12).1

/-- `randomizeBoardActiveState` (earlier variant): pick a random target
count below 14, reset, shuffle the non-free cells and activate
`target - 1` of them, then refresh reach marks. -/
def randomizeBoardLegacy (targetRand : Nat) (o : Nat → Nat) (c : BingoCard) : BingoCard :=
  let targetActiveCount := targetRand % 14
  let c1 := resetBoard c
  let pickable := (List.range c1.length).filter (fun i => (cardAt c1 i).isFree = false)
  let shuffled := fisherYates o pickable
  let cnt := min (targetActiveCount - 1) pickable.length
  updateReachStatus ((shuffled.take cnt).foldl setActiveAt c1)

/-! ## Statistics (`statistics.ts`, current variant) -/

/-- JS `Map<number, number>` as an insertion-ordered association list. -/
def mapGetN (m : List (Nat × Nat)) (k : Nat) : Option Nat :=
  (m.find? (fun p => p.1 = k)).map (fun p => p.2)

/-- `Map.set`: update in place when the key exists, else append. -/
def mapSetN (m : List (Nat × Nat)) (k v : Nat) : List (Nat × Nat) :=
  if m.any (fun p => p.1 = k) then
    m.map (fun p => if p.1 = k then (k, v) else p)
  else m ++ [(k, v)]

/-- `BonusTypeStatistics` from `types.ts`. -/
structure BonusTypeStatistics where
  appliedCount : Nat
  totalActivated : Nat
  totalLines : Nat
  totalScore : Nat
  linesDistribution : List (Nat × Nat)
deriving DecidableEq, Repr

/-- `TotalStatistics` (current variant). -/
structure TotalStatistics where
  totalDraws : Nat
  hitCount : Nat
  winCount : Nat
  totalLines : Nat
  totalScore : Nat
  linesDistribution : List (Nat × Nat)
  totalActiveCount : Nat
  bonusTypeStats : List (BonusType × BonusTypeStatistics)
deriving DecidableEq, Repr

/-- `DrawStatistics` (current variant). -/
structure DrawStatistics where
  isHit : Bool
  isWin : Bool
  bonusApplied : Bool
  bonusType : Option BonusType
  bonusActivatedCount : Nat
  linesCompleted : Nat
  score : Nat
  actCount : Nat
deriving DecidableEq, Repr

/-- `createEmptyStats` (current variant). -/
def createEmptyStats : TotalStatistics :=
  ⟨0, 0, 0, 0, 0, [], 0, []⟩

/-- Lookup/insert for the per-kind sub-aggregates (`getOrCreateBonusStats`). -/
def emptyBonusStats : BonusTypeStatistics := ⟨0, 0, 0, 0, []⟩

/-- Update the per-kind sub-aggregate map at kind `t`. -/
def updateBonusStats (m : List (BonusType × BonusTypeStatistics)) (t : BonusType)
    (f : BonusTypeStatistics → BonusTypeStatistics) :
    List (BonusType × BonusTypeStatistics) :=
  if m.any (fun p => p.1 = t) then
    m.map (fun p => if p.1 = t then (t, f p.2) else p)
  else m ++ [(t, f emptyBonusStats)]

/-- `StatisticsManager.record` (current variant). -/
def record (s : TotalStatistics) (d : DrawStatistics) : TotalStatistics :=
  let s1 : TotalStatistics :=
    { s with
      totalDraws := s.totalDraws + 1
      hitCount := s.hitCount + (if d.isHit then 1 else 0)
      winCount := s.winCount + (if d.isWin then 1 else 0)
      totalLines := s.totalLines + d.linesCompleted
      totalScore := s.totalScore + d.score
      totalActiveCount := s.totalActiveCount + d.actCount
      linesDistribution :=
        mapSetN s.linesDistribution d.linesCompleted
          ((mapGetN s.linesDistribution d.linesCompleted).getD 0 + 1) }
  match d.bonusApplied, d.bonusType with
  | true, some t =>
    { s1 with
      bonusTypeStats := updateBonusStats s1.bonusTypeStats t (fun b =>
        { b with
          appliedCount := b.appliedCount + 1
          totalActivated := b.totalActivated + d.bonusActivatedCount
          totalLines := b.totalLines + d.linesCompleted
          totalScore := b.totalScore + d.score
          linesDistribution :=
            mapSetN b.linesDistribution d.linesCompleted
              ((mapGetN b.linesDistribution d.linesCompleted).getD 0 + 1) }) }
  | _, _ => s1

/-- `getHitRate`: 0 on an empty aggregate, never a division by zero. -/
def getHitRate (s : TotalStatistics) : Rat :=
  if s.totalDraws = 0 then 0 else (s.hitCount : Rat) / (s.totalDraws : Rat)

/-- `getWinRate`. -/
def getWinRate (s : TotalStatistics) : Rat :=
  if s.totalDraws = 0 then 0 else (s.winCount : Rat) / (s.totalDraws : Rat)

/-- `getAverageLines`. -/
def getAverageLines (s : TotalStatistics) : Rat :=
  if s.totalDraws = 0 then 0 else (s.totalLines : Rat) / (s.totalDraws : Rat)

/-- `getAverageScore`. -/
def getAverageScore (s : TotalStatistics) : Rat :=
  if s.totalDraws = 0 then 0 else (s.totalScore : Rat) / (s.totalDraws : Rat)

/-- `getAverageActiveCount`. -/
def getAverageActiveCount (s : TotalStatistics) : Rat :=
  if s.totalDraws = 0 then 0 else (s.totalActiveCount : Rat) / (s.totalDraws : Rat)

/-- Ascending insertion sort on key for distribution pairs. -/
def insertPairAsc (p : Nat × Nat) : List (Nat × Nat) → List (Nat × Nat)
  | [] => [p]
  | q :: qs => if p.1 ≤ q.1 then p :: q :: qs else q :: insertPairAsc p qs

/-- `getLinesDistribution`: entries sorted ascending by key. -/
def getLinesDistribution (s : TotalStatistics) : List (Nat × Nat) :=
  s.linesDistribution.foldr insertPairAsc []

/-- `getLinesDistributionCsv` (numeric formatting is JS-specific; the rows
are rendered with Lean's `toString` of the same numbers). -/
def getLinesDistributionCsv (s : TotalStatistics) : String :=
  String.intercalate "\n"
    ("score,count" ::
      (getLinesDistribution s).map (fun p => toString p.1 ++ "," ++ toString p.2))

/-- Rationals rendered as `num/den` (stand-in for JS number formatting). -/
def ratCsv (q : Rat) : String := toString q.num ++ "/" ++ toString q.den

/-- `getOrderedBonusTypes` = `Object.values(BonusType)`; the current
`types.ts` is not among the sources, so the declaration order is taken from
the bonus registry registration order. -/
def getOrderedBonusTypes : List BonusType := registryOrder

/-- Sum of distribution counts with key at or above `threshold`
(`getDistributionCountSameOrMore`). -/
def distributionCountSameOrMore (m : List (Nat × Nat)) (threshold : Nat) : Nat :=
  ((m.filter (fun p => threshold ≤ p.1)).map (fun p => p.2)).sum

/-- One row of `getBonusTypeStatsCsv`. -/
def bonusTypeStatsRow (t : BonusType) (b : BonusTypeStatistics) : String :=
  let avg : Nat → String := fun n =>
    if b.appliedCount = 0 then ratCsv 0 else ratCsv ((n : Rat) / (b.appliedCount : Rat))
  String.intercalate ","
    [toString (repr t), toString b.appliedCount, avg b.totalActivated,
     avg b.totalLines, avg b.totalScore,
     toString ((mapGetN b.linesDistribution 0).getD 0),
     toString ((mapGetN b.linesDistribution 1).getD 0),
     toString ((mapGetN b.linesDistribution 2).getD 0),
     toString ((mapGetN b.linesDistribution 3).getD 0),
     toString ((mapGetN b.linesDistribution 4).getD 0),
     toString (distributionCountSameOrMore b.linesDistribution 5)]

/-- `getBonusTypeStatsCsv`: header plus one row per recorded bonus kind. -/
def getBonusTypeStatsCsv (s : TotalStatistics) : String :=
  let header := "bonusType,appliedCount,avgActivated,avgLines,avgScore,cntLine0,cntLine1,cntLine2,cntLine3,cntLine4,cntLine5orMore"
  let rows := getOrderedBonusTypes.filterMap (fun t =>
    (s.bonusTypeStats.find? (fun p => p.1 = t)).map (fun p => bonusTypeStatsRow t p.2))
  String.intercalate "\n" (header :: rows)

/-- `getBonusTypeLinesDistributionCsv`: header plus one row per kind and
lines-count bucket. -/
def getBonusTypeLinesDistributionCsv (s : TotalStatistics) : String :=
  let header := "bonusType,lines,count,rate"
  let rows := getOrderedBonusTypes.flatMap (fun t =>
    match s.bonusTypeStats.find? (fun p => p.1 = t) with
    | none => []
    | some p =>
      (p.2.linesDistribution.foldr insertPairAsc []).map (fun q =>
        String.intercalate ","
          [toString (repr t), toString q.1, toString q.2,
           if p.2.appliedCount = 0 then ratCsv 0
           else ratCsv ((q.2 : Rat) / (p.2.appliedCount : Rat))]))
  String.intercalate "\n" (header :: rows)

/-- `StatisticsManager.reset` (current variant): full replacement. -/
def resetStats (_ : TotalStatistics) : TotalStatistics := createEmptyStats

/-! ## Statistics (earlier variant, kept with the old bonus module) -/

/-- `TotalStatistics` (earlier variant, keyed by score). -/
structure LegacyTotals where
  totalDraws : Nat
  hitCount : Nat
  winCount : Nat
  totalScore : Nat
  scoreDistribution : List (Nat × Nat)
  totalActiveCount : Nat
deriving DecidableEq, Repr

/-- `DrawStatistics` (earlier variant). -/
structure LegacyDrawStats where
  isHit : Bool
  isWin : Bool
  score : Nat
  actCount : Nat
deriving DecidableEq, Repr

/-- `createEmptyStats` (earlier variant). -/
def legacyEmptyStats : LegacyTotals := ⟨0, 0, 0, 0, [], 0⟩

/-- `record` (earlier variant). -/
def legacyRecord (s : LegacyTotals) (d : LegacyDrawStats) : LegacyTotals :=
  { s with
    totalDraws := s.totalDraws + 1
    hitCount := s.hitCount + (if d.isHit then 1 else 0)
    winCount := s.winCount + (if d.isWin then 1 else 0)
    totalScore := s.totalScore + d.score
    totalActiveCount := s.totalActiveCount + d.actCount
    scoreDistribution :=
      mapSetN s.scoreDistribution d.score
        ((mapGetN s.scoreDistribution d.score).getD 0 + 1) }

/-! ## The game engine (`game.ts`, current variant) -/

/-- `DrawResult` as built by `draw()` in `game.ts`. -/
structure DrawResult where
  drawnNumber : Nat
  isDrawnHit : Bool
  bonusNumbers : List Nat
  activatedNumbers : List Nat
  bonusQueued : Bool
  bonusApplied : Bool
  bonusType : Option BonusType
  bonusQueuedType : Option BonusType
  linesCompleted : Nat
  lineNumbers : List Nat
  score : Nat
  actCount : Nat
deriving DecidableEq, Repr

/-- The `'none' | 'disabled' | 'random' | 'fixed'` always-bonus mode. -/
inductive AlwaysBonusMode where
  | off
  | disabled
  | random
  | fixed
deriving DecidableEq, Repr

/-- The private state of a `BingoGame` (current variant).  `off` is the
TS mode string `'none'`. -/
structure GameState where
  card : BingoCard
  pendingBonus : Bool
  pendingBonusType : Option BonusType
  alwaysBonusMode : AlwaysBonusMode
  alwaysBonusType : Option BonusType
  enabledBonusTypes : List BonusType
  randomizeBoardEachDraw : Bool
  stats : TotalStatistics
  lastResult : Option DrawResult
deriving Repr

/-- All the random draws one `draw()` call can make. -/
structure DrawOracle where
  drawRand : Nat
  queuePick : Nat
  applyPick : Nat
  bonus : Nat → Nat
  reach : Nat → Nat
  rz : RandomizeOracle
  legacyTargetRand : Nat
  legacyShuffle : Nat → Nat

/-- The state after `new BingoGame()`: fresh card, everything enabled. -/
def initialGameState : GameState :=
  { card := createInitialCard
    pendingBonus := false
    pendingBonusType := none
    alwaysBonusMode := .off
    alwaysBonusType := none
    enabledBonusTypes := registryOrder
    randomizeBoardEachDraw := false
    stats := createEmptyStats
    lastResult := none }

/-- `getCard()` (value-level view; the aliasing of the returned cell
objects is modelled separately below). -/
def getCard (s : GameState) : BingoCard := s.card

/-- `reset()`: fresh card and statistics, cleared queue, reach refresh;
configuration is kept. -/
def resetGame (s : GameState) : GameState :=
  { s with
    card := updateReachStatus createInitialCard
    stats := resetStats s.stats
    lastResult := none
    pendingBonus := false
    pendingBonusType := none }

/-- `setAlwaysBonusSetting(mode, type)`: a non-`'none'` mode drops any
queued bonus. -/
def setAlwaysBonusSetting (s : GameState) (mode : AlwaysBonusMode)
    (type : Option BonusType) : GameState :=
  let s1 := { s with
    alwaysBonusMode := mode
    alwaysBonusType := if mode = .fixed then type else none }
  if mode ≠ .off then { s1 with pendingBonus := false, pendingBonusType := none }
  else s1

/-- `setRandomizeBoardEachDraw`. -/
def setRandomizeBoardEachDraw (s : GameState) (enabled : Bool) : GameState :=
  { s with randomizeBoardEachDraw := enabled }

/-- `setEnabledBonusTypes`. -/
def setEnabledBonusTypes (s : GameState) (types : List BonusType) : GameState :=
  { s with enabledBonusTypes := types }

/-- The pre-draw phase of `draw()`: board randomization, or line reset
followed by reach forcing. -/
def preDrawCard (o : DrawOracle) (s : GameState) : BingoCard :=
  if s.randomizeBoardEachDraw then randomizeBoardActiveState o.rz s.card
  else (ensureReachBeforeDraw o.reach (resetLineStatus s.card)).1

/-- `getEnabledHandlers()`: registry order filtered by the enabled set. -/
def enabledHandlers (s : GameState) : List BonusType :=
  registryOrder.filter (fun t => s.enabledBonusTypes.contains t)

/-- `getRandomHandler()`: a uniformly random enabled handler, `undefined`
when none is enabled. -/
def pickHandler (hs : List BonusType) (pick : Nat) : Option BonusType :=
  if hs.length = 0 then none else hs.get? (pick % hs.length)

/-- The "normal draw" activation: find the cell with the drawn number and
activate it if inactive; the hit flag reports whether it fired. -/
def activateByNumber : BingoCard → Nat → BingoCard × Bool
  | [], _ => ([], false)
  | c :: cs, n =>
    if c.number = n then
      if c.isActive then (c :: cs, false)
      else ({ c with isActive := true } :: cs, true)
    else
      (c :: (activateByNumber cs n).1, (activateByNumber cs n).2)

/-- Outcome of the bonus-application step of one draw. -/
structure ApplyOutcome where
  card : BingoCard
  bonusNumbers : List Nat
  bonusApplied : Bool
  bonusType : Option BonusType
  pendingBonus : Bool
  pendingBonusType : Option BonusType

/-- The always/queued bonus application block of `draw()`. -/
def applyBonusPhase (o : DrawOracle) (s : GameState) (card1 : BingoCard)
    (drawnNumber : Nat) : ApplyOutcome :=
  if s.alwaysBonusMode = .fixed then
    match s.alwaysBonusType.bind (registryGet registryOrder) with
    | some t =>
      ⟨(execHandler o.bonus t card1 (some drawnNumber)).1,
       (execHandler o.bonus t card1 (some drawnNumber)).2,
       true, some t, s.pendingBonus, s.pendingBonusType⟩
    | none => ⟨card1, [], false, none, s.pendingBonus, s.pendingBonusType⟩
  else if s.alwaysBonusMode = .random then
    match pickHandler (enabledHandlers s) o.applyPick with
    | some t =>
      ⟨(execHandler o.bonus t card1 (some drawnNumber)).1,
       (execHandler o.bonus t card1 (some drawnNumber)).2,
       true, some t, s.pendingBonus, s.pendingBonusType⟩
    | none => ⟨card1, [], false, none, s.pendingBonus, s.pendingBonusType⟩
  else if s.alwaysBonusMode ≠ .disabled && s.pendingBonus then
    match (match s.pendingBonusType.bind (registryGet registryOrder) with
           | some t =>
             if s.enabledBonusTypes.contains t then some t
             else pickHandler (enabledHandlers s) o.applyPick
           | none => pickHandler (enabledHandlers s) o.applyPick) with
    | some t =>
      ⟨(execHandler o.bonus t card1 (some drawnNumber)).1,
       (execHandler o.bonus t card1 (some drawnNumber)).2,
       true, some t, false, none⟩
    | none => ⟨card1, [], false, none, false, none⟩
  else ⟨card1, [], false, none, s.pendingBonus, s.pendingBonusType⟩

/-- The number drawn by one `draw()` (`Math.floor(Math.random()*25)+1`). -/
def drawnNumberOf (o : DrawOracle) : Nat := o.drawRand % 25 + 1

/-- The card after the normal (non-13) activation step. -/
def normalCard (o : DrawOracle) (c : BingoCard) : BingoCard :=
  if isBonusTriggerNumber (drawnNumberOf o) then c
  else (activateByNumber c (drawnNumberOf o)).1

/-- The hit flag of the normal activation step. -/
def normalHit (o : DrawOracle) (c : BingoCard) : Bool :=
  if isBonusTriggerNumber (drawnNumberOf o) then false
  else (activateByNumber c (drawnNumberOf o)).2

/-- The bonus kind queued by this draw, if any (only a drawn 13 with no
always-mode active queues, and only when an enabled handler exists). -/
def queueType (o : DrawOracle) (s : GameState) : Option BonusType :=
  if s.alwaysBonusMode = .off && isBonusTriggerNumber (drawnNumberOf o) then
    pickHandler (enabledHandlers s) o.queuePick
  else none

/-- The body of `draw()` after the pre-draw phase (`s.card` is already the
pre-draw result). -/
def drawMain (o : DrawOracle) (s : GameState) : DrawResult × GameState :=
  let drawnNumber := drawnNumberOf o
  let queuedType := queueType o s
  let ap := applyBonusPhase o s (normalCard o s.card) drawnNumber
  let checked := checkLines ap.card
  let score := getScore checked.2.1
  let act := activeCount checked.1
  let result : DrawResult :=
    { drawnNumber := drawnNumber
      isDrawnHit := normalHit o s.card
      bonusNumbers := ap.bonusNumbers
      activatedNumbers :=
        (if normalHit o s.card then [drawnNumber] else []) ++ ap.bonusNumbers
      bonusQueued := queuedType.isSome
      bonusApplied := ap.bonusApplied
      bonusType := ap.bonusType
      bonusQueuedType := queuedType
      linesCompleted := checked.2.1
      lineNumbers := checked.2.2
      score := score
      actCount := act }
  let drawStats : DrawStatistics :=
    { isHit := normalHit o s.card || decide (0 < ap.bonusNumbers.length)
      isWin := decide (0 < checked.2.1)
      bonusApplied := ap.bonusApplied
      bonusType := if ap.bonusApplied then ap.bonusType else none
      bonusActivatedCount := if ap.bonusApplied then ap.bonusNumbers.length else 0
      linesCompleted := checked.2.1
      score := score
      actCount := act }
  (result,
    { s with
      card := updateReachStatus checked.1
      pendingBonus := if queuedType.isSome then true else ap.pendingBonus
      pendingBonusType := if queuedType.isSome then queuedType else ap.pendingBonusType
      stats := record s.stats drawStats
      lastResult := some result })

/-- `draw()`: pre-draw phase followed by the main body. -/
def draw (o : DrawOracle) (s : GameState) : DrawResult × GameState :=
  drawMain o { s with card := preDrawCard o s }

/-- `drawMultiple(count)`: `count` sequential draws, results in order. -/
def drawMultiple (os : Nat → DrawOracle) : Nat → GameState → List DrawResult × GameState
  | 0, s => ([], s)
  | n + 1, s =>
    let (r, s1) := draw (os 0) s
    let (rs, s2) := drawMultiple (fun i => os (i + 1)) n s1
    (r :: rs, s2)

/-! ## The game engine (earlier variant of `game.ts`) -/

/-- Private state of the earlier `BingoGame` (`setAlwaysBonusType` instead
of the four-valued mode). -/
structure LegacyState where
  card : BingoCard
  pendingBonus : Bool
  pendingBonusType : Option BonusType
  alwaysBonusType : Option BonusType
  enabledBonusTypes : List BonusType
  randomizeBoardEachDraw : Bool
  stats : LegacyTotals
  lastResult : Option DrawResult
deriving Repr

/-- `new BingoGame()` (earlier variant). -/
def legacyInitialState : LegacyState :=
  { card := createInitialCard
    pendingBonus := false
    pendingBonusType := none
    alwaysBonusType := none
    enabledBonusTypes := legacyRegistryOrder
    randomizeBoardEachDraw := false
    stats := legacyEmptyStats
    lastResult := none }

/-- `setAlwaysBonusType(type)` (earlier variant): a non-null type drops any
queued bonus. -/
def setAlwaysBonusType (s : LegacyState) (type : Option BonusType) : LegacyState :=
  let s1 := { s with alwaysBonusType := type }
  match type with
  | some _ => { s1 with pendingBonus := false, pendingBonusType := none }
  | none => s1

/-- Enabled handlers (earlier variant). -/
def legacyEnabledHandlers (s : LegacyState) : List BonusType :=
  legacyRegistryOrder.filter (fun t => s.enabledBonusTypes.contains t)

/-- Pre-draw phase (earlier variant). -/
def legacyPreDrawCard (o : DrawOracle) (s : LegacyState) : BingoCard :=
  if s.randomizeBoardEachDraw then
    randomizeBoardLegacy o.legacyTargetRand o.legacyShuffle s.card
  else (ensureReachBeforeDraw o.reach (resetLineStatus s.card)).1

/-- Bonus application block of the earlier `draw()`. -/
def legacyApplyBonusPhase (o : DrawOracle) (s : LegacyState) (card1 : BingoCard)
    (drawnNumber : Nat) : ApplyOutcome :=
  match s.alwaysBonusType with
  | some t0 =>
    (match registryGet legacyRegistryOrder t0 with
     | some t =>
       ⟨(execHandler o.bonus t card1 (some drawnNumber)).1,
        (execHandler o.bonus t card1 (some drawnNumber)).2,
        true, some t, s.pendingBonus, s.pendingBonusType⟩
     | none => ⟨card1, [], false, none, s.pendingBonus, s.pendingBonusType⟩)
  | none =>
    if s.pendingBonus then
      match (match s.pendingBonusType.bind (registryGet legacyRegistryOrder) with
             | some t =>
               if s.enabledBonusTypes.contains t then some t
               else pickHandler (legacyEnabledHandlers s) o.applyPick
             | none => pickHandler (legacyEnabledHandlers s) o.applyPick) with
      | some t =>
        ⟨(execHandler o.bonus t card1 (some drawnNumber)).1,
         (execHandler o.bonus t card1 (some drawnNumber)).2,
         true, some t, false, none⟩
      | none => ⟨card1, [], false, none, false, none⟩
    else ⟨card1, [], false, none, s.pendingBonus, s.pendingBonusType⟩

/-- Body of the earlier `draw()` after the pre-draw phase.  The score is
the identity on the completed-lines count. -/
def legacyQueueType (o : DrawOracle) (s : LegacyState) : Option BonusType :=
  if s.alwaysBonusType = none && isBonusTriggerNumber (drawnNumberOf o) then
    pickHandler (legacyEnabledHandlers s) o.queuePick
  else none

def legacyDrawMain (o : DrawOracle) (s : LegacyState) : DrawResult × LegacyState :=
  let drawnNumber := drawnNumberOf o
  let queuedType := legacyQueueType o s
  let ap := legacyApplyBonusPhase o s (normalCard o s.card) drawnNumber
  let checked := checkLines ap.card
  let score := checked.2.1
  let act := activeCount checked.1
  let result : DrawResult :=
    { drawnNumber := drawnNumber
      isDrawnHit := normalHit o s.card
      bonusNumbers := ap.bonusNumbers
      activatedNumbers :=
        (if normalHit o s.card then [drawnNumber] else []) ++ ap.bonusNumbers
      bonusQueued := queuedType.isSome
      bonusApplied := ap.bonusApplied
      bonusType := ap.bonusType
      bonusQueuedType := queuedType
      linesCompleted := checked.2.1
      lineNumbers := checked.2.2
      score := score
      actCount := act }
  let drawStats : LegacyDrawStats :=
    { isHit := normalHit o s.card || decide (0 < ap.bonusNumbers.length)
      isWin := decide (0 < score)
      score := score
      actCount := act }
  (result,
    { s with
      card := updateReachStatus checked.1
      pendingBonus := if queuedType.isSome then true else ap.pendingBonus
      pendingBonusType := if queuedType.isSome then queuedType else ap.pendingBonusType
      stats := legacyRecord s.stats drawStats
      lastResult := some result })

/-- `draw()` (earlier variant). -/
def legacyDraw (o : DrawOracle) (s : LegacyState) : DrawResult × LegacyState :=
  legacyDrawMain o { s with card := legacyPreDrawCard o s }

/-! ## Pointwise step relations between cards

Each engine phase is classified by which cell fields it can touch.  These
relations compose, which lets the per-claim proofs track exactly the facts
they need across a whole `draw()`. -/

/-- Only `isReach` may change. -/
def ReachOnly (c c' : BingoCard) : Prop :=
  c'.length = c.length ∧ ∀ i,
    (cardAt c' i).number = (cardAt c i).number ∧
    (cardAt c' i).isFree = (cardAt c i).isFree ∧
    (cardAt c' i).isLine = (cardAt c i).isLine ∧
    (cardAt c' i).isActive = (cardAt c i).isActive

/-- Only `isActive` (monotonically upward) and `isReach` may change. -/
def ActMono (c c' : BingoCard) : Prop :=
  c'.length = c.length ∧ ∀ i,
    (cardAt c' i).number = (cardAt c i).number ∧
    (cardAt c' i).isFree = (cardAt c i).isFree ∧
    (cardAt c' i).isLine = (cardAt c i).isLine ∧
    ((cardAt c i).isActive = true → (cardAt c' i).isActive = true)

/-- `number` and `isFree` are untouched and a free active cell stays
active (the weakest relation, spanning the deactivating phases too). -/
def FreeSafe (c c' : BingoCard) : Prop :=
  c'.length = c.length ∧ ∀ i,
    (cardAt c' i).number = (cardAt c i).number ∧
    (cardAt c' i).isFree = (cardAt c i).isFree ∧
    ((cardAt c i).isFree = true → (cardAt c i).isActive = true →
      (cardAt c' i).isActive = true)

/-- Plain activation monotonicity (used for the bonus-phase claim). -/
def Monot (c c' : BingoCard) : Prop :=
  c'.length = c.length ∧ ∀ i,
    (cardAt c i).isActive = true → (cardAt c' i).isActive = true

theorem ReachOnly.actMono {c c' : BingoCard} (h : ReachOnly c c') : ActMono c c' :=
  ⟨h.1, fun i => ⟨(h.2 i).1, (h.2 i).2.1, (h.2 i).2.2.1, fun ha => by
    rw [(h.2 i).2.2.2]; exact ha⟩⟩

theorem ActMono.freeSafe {c c' : BingoCard} (h : ActMono c c') : FreeSafe c c' :=
  ⟨h.1, fun i => ⟨(h.2 i).1, (h.2 i).2.1, fun _ ha => (h.2 i).2.2.2 ha⟩⟩

theorem ActMono.monot {c c' : BingoCard} (h : ActMono c c') : Monot c c' :=
  ⟨h.1, fun i => (h.2 i).2.2.2⟩

theorem reachOnly_refl (c : BingoCard) : ReachOnly c c :=
  ⟨rfl, fun _ => ⟨rfl, rfl, rfl, rfl⟩⟩

theorem actMono_refl (c : BingoCard) : ActMono c c :=
  (reachOnly_refl c).actMono

theorem freeSafe_refl (c : BingoCard) : FreeSafe c c :=
  (actMono_refl c).freeSafe

theorem reachOnly_trans {a b c : BingoCard} (h1 : ReachOnly a b)
    (h2 : ReachOnly b c) : ReachOnly a c :=
  ⟨h2.1.trans h1.1, fun i =>
    ⟨((h2.2 i).1).trans (h1.2 i).1, ((h2.2 i).2.1).trans (h1.2 i).2.1,
     ((h2.2 i).2.2.1).trans (h1.2 i).2.2.1,
     ((h2.2 i).2.2.2).trans (h1.2 i).2.2.2⟩⟩

theorem actMono_trans {a b c : BingoCard} (h1 : ActMono a b)
    (h2 : ActMono b c) : ActMono a c :=
  ⟨h2.1.trans h1.1, fun i =>
    ⟨((h2.2 i).1).trans (h1.2 i).1, ((h2.2 i).2.1).trans (h1.2 i).2.1,
     ((h2.2 i).2.2.1).trans (h1.2 i).2.2.1,
     fun ha => (h2.2 i).2.2.2 ((h1.2 i).2.2.2 ha)⟩⟩

theorem freeSafe_trans {a b c : BingoCard} (h1 : FreeSafe a b)
    (h2 : FreeSafe b c) : FreeSafe a c :=
  ⟨h2.1.trans h1.1, fun i =>
    ⟨((h2.2 i).1).trans (h1.2 i).1, ((h2.2 i).2.1).trans (h1.2 i).2.1,
     fun hf ha => by
       have hf' : (cardAt b i).isFree = true := by rw [(h1.2 i).2.1]; exact hf
       exact (h2.2 i).2.2 hf' ((h1.2 i).2.2 hf ha)⟩⟩

/-! ### Primitive step lemmas -/

/-- Writing a field other than `isActive` at one index. -/
theorem reachOnly_modify_isReach (c : BingoCard) (i : Nat) (b : Bool) :
    ReachOnly c (modifyCell c i (fun cell => { cell with isReach := b })) := by
  refine ⟨length_modifyCell c i _, fun j => ?_⟩
  by_cases hij : j = i
  · subst hij
    by_cases hlt : j < c.length
    · rw [cardAt_modifyCell_self c j _ hlt]; exact ⟨rfl, rfl, rfl, rfl⟩
    · rw [modifyCell_oob c j _ (Nat.le_of_not_lt hlt)]; exact ⟨rfl, rfl, rfl, rfl⟩
  · rw [cardAt_modifyCell_ne c i j _ hij]; exact ⟨rfl, rfl, rfl, rfl⟩

theorem actMono_setActiveAt (c : BingoCard) (i : Nat) :
    ActMono c (setActiveAt c i) := by
  refine ⟨length_modifyCell c i _, fun j => ?_⟩
  by_cases hij : j = i
  · subst hij
    by_cases hlt : j < c.length
    · rw [setActiveAt, cardAt_modifyCell_self c j _ hlt]
      exact ⟨rfl, rfl, rfl, fun _ => rfl⟩
    · rw [setActiveAt, modifyCell_oob c j _ (Nat.le_of_not_lt hlt)]
      exact ⟨rfl, rfl, rfl, fun h => h⟩
  · rw [setActiveAt, cardAt_modifyCell_ne c i j _ hij]
    exact ⟨rfl, rfl, rfl, fun h => h⟩

/-- Deactivating a non-free cell is `FreeSafe` and keeps `isLine`. -/
theorem freeSafe_deactivate (c : BingoCard) (i : Nat)
    (hf : (cardAt c i).isFree = false) :
    FreeSafe c (modifyCell c i (fun cell => { cell with isActive := false })) ∧
    ∀ j, (cardAt (modifyCell c i (fun cell => { cell with isActive := false })) j).isLine
      = (cardAt c j).isLine := by
  constructor
  · refine ⟨length_modifyCell c i _, fun j => ?_⟩
    by_cases hij : j = i
    · subst hij
      by_cases hlt : j < c.length
      · rw [cardAt_modifyCell_self c j _ hlt]
        exact ⟨rfl, rfl, fun hfree _ => absurd hfree (by simp [hf])⟩
      · rw [modifyCell_oob c j _ (Nat.le_of_not_lt hlt)]
        exact ⟨rfl, rfl, fun _ h => h⟩
    · rw [cardAt_modifyCell_ne c i j _ hij]
      exact ⟨rfl, rfl, fun _ h => h⟩
  · intro j
    by_cases hij : j = i
    · subst hij
      by_cases hlt : j < c.length
      · rw [cardAt_modifyCell_self c j _ hlt]
      · rw [modifyCell_oob c j _ (Nat.le_of_not_lt hlt)]
    · rw [cardAt_modifyCell_ne c i j _ hij]

/-- `markReach` only touches `isReach`. -/
theorem reachOnly_markReach (c : BingoCard) (line : List Nat) :
    ReachOnly c (markReach c line) := by
  rw [markReach]
  induction line generalizing c with
  | nil => exact reachOnly_refl c
  | cons hd tl ih =>
    exact reachOnly_trans (reachOnly_modify_isReach c hd true) (ih _)

/-- `updateReachStatus` only touches `isReach`. -/
theorem reachOnly_updateReachStatus (c : BingoCard) :
    ReachOnly c (updateReachStatus c) := by
  rw [updateReachStatus]
  have hmap : ReachOnly c (c.map (fun cell => { cell with isReach := false })) := by
    refine ⟨by simp, fun i => ?_⟩
    by_cases hlt : i < c.length
    · rw [cardAt_map c _ i hlt]; exact ⟨rfl, rfl, rfl, rfl⟩
    · rw [cardAt_oob _ i (by simpa using Nat.le_of_not_lt hlt),
        cardAt_oob c i (Nat.le_of_not_lt hlt)]
      exact ⟨rfl, rfl, rfl, rfl⟩
  refine reachOnly_trans hmap ?_
  generalize c.map (fun cell => { cell with isReach := false }) = c0
  induction ALL_LINES generalizing c0 with
  | nil => exact reachOnly_refl c0
  | cons hd tl ih =>
    simp only [List.foldl_cons]
    by_cases hc : ((lineActives c0 hd).length = 4 && (lineInactives c0 hd).length = 1) = true
    · rw [if_pos hc]; exact reachOnly_trans (reachOnly_markReach c0 hd) (ih _)
    · rw [if_neg hc]; exact ih c0

/-- `resetLineStatus` keeps `number`/`isFree`, never touches the free
cell's activation, and clears every `isLine` mark. -/
theorem resetLineStatus_spec (c : BingoCard) :
    FreeSafe c (resetLineStatus c) ∧
    ∀ i, (cardAt (resetLineStatus c) i).isLine = false := by
  constructor
  · refine ⟨by simp [resetLineStatus], fun i => ?_⟩
    by_cases hlt : i < c.length
    · rw [resetLineStatus, cardAt_map c _ i hlt]
      by_cases hc : ((cardAt c i).isLine && !(cardAt c i).isFree) = true
      · rw [if_pos hc]
        refine ⟨rfl, rfl, fun hf _ => ?_⟩
        simp [hf] at hc
      · rw [if_neg hc]; exact ⟨rfl, rfl, fun _ h => h⟩
    · rw [resetLineStatus, cardAt_oob _ i (by simpa using Nat.le_of_not_lt hlt),
        cardAt_oob c i (Nat.le_of_not_lt hlt)]
      exact ⟨rfl, rfl, fun _ h => h⟩
  · intro i
    by_cases hlt : i < c.length
    · rw [resetLineStatus, cardAt_map c _ i hlt]
      by_cases hc : ((cardAt c i).isLine && !(cardAt c i).isFree) = true
      · rw [if_pos hc]
      · rw [if_neg hc]
    · rw [resetLineStatus, cardAt_oob _ i (by simpa using Nat.le_of_not_lt hlt)]
      rfl

/-- `resetBoard` keeps `number`/`isFree`, reactivates the free cell and
clears `isLine` and `isReach` everywhere. -/
theorem resetBoard_spec (c : BingoCard) :
    FreeSafe c (resetBoard c) ∧
    (∀ i, (cardAt (resetBoard c) i).isLine = false) ∧
    (∀ i, (cardAt (resetBoard c) i).isActive = (cardAt (resetBoard c) i).isFree) := by
  refine ⟨⟨by simp [resetBoard], fun i => ?_⟩, fun i => ?_, fun i => ?_⟩ <;>
    by_cases hlt : i < c.length
  · rw [resetBoard, cardAt_map c _ i hlt]
    exact ⟨rfl, rfl, fun hf _ => hf⟩
  · rw [resetBoard, cardAt_oob _ i (by simpa using Nat.le_of_not_lt hlt),
      cardAt_oob c i (Nat.le_of_not_lt hlt)]
    exact ⟨rfl, rfl, fun _ h => h⟩
  · rw [resetBoard, cardAt_map c _ i hlt]
  · rw [resetBoard, cardAt_oob _ i (by simpa using Nat.le_of_not_lt hlt)]; rfl
  · rw [resetBoard, cardAt_map c _ i hlt]
  · rw [resetBoard, cardAt_oob _ i (by simpa using Nat.le_of_not_lt hlt)]; rfl

/-- `activateCell` is monotone on activation (never deactivates). -/
theorem actMono_activateCell (c : BingoCard) (i : Nat) :
    ActMono c (activateCell c i).1 := by
  rw [activateCell]
  by_cases h1 : i < c.length
  · rw [if_pos h1]
    by_cases h2 : (cardAt c i).isActive = true
    · rw [if_pos h2]; exact actMono_refl c
    · rw [if_neg h2]; exact actMono_setActiveAt c i
  · rw [if_neg h1]; exact actMono_refl c

/-- The target-activation loop is monotone on activation. -/
theorem actMono_activateTargets (c : BingoCard) (ts : List Nat) :
    ActMono c (activateTargets c ts).1 := by
  induction ts generalizing c with
  | nil => exact actMono_refl c
  | cons hd tl ih =>
    simp only [activateTargets]
    exact actMono_trans (actMono_activateCell c hd) (ih _)

/-- Every bonus handler's `execute` is monotone on activation: a cell that
is active before the call is active after it. -/
theorem actMono_execHandler (o : Nat → Nat) (t : BonusType) (c : BingoCard)
    (base : Option Nat) : ActMono c (execHandler o t c base).1 := by
  cases t <;> simp only [execHandler, randomBase, baseTargetsHandler, activateTargetsInt]
  case UNLOCK_RANDOM_ONE =>
    by_cases h : ((List.range c.length).filter
        (fun i => (cardAt c i).isActive = false && (cardAt c i).isFree = false)).length = 0
    · rw [if_pos h]; exact actMono_refl c
    · rw [if_neg h]; exact actMono_activateCell c _
  case RANDOM_THREE_WITH_MISS => exact actMono_activateTargets c _
  case ACTIVATE_RANDOM_ONE => exact actMono_activateTargets c _
  case ACTIVATE_RANDOM_TWO => exact actMono_activateTargets c _
  case ACTIVATE_RANDOM_FOUR => exact actMono_activateTargets c _
  case ACTIVATE_RANDOM_EIGHT => exact actMono_activateTargets c _
  case ACTIVATE_BOX =>
    cases getBaseIndex base with
    | none => exact actMono_refl c
    | some b => exact actMono_activateTargets c _
  all_goals
    cases getBaseIndex base with
    | none => exact actMono_refl c
    | some b => exact actMono_activateTargets c _

/-- `cardAt` on a cons cell. -/
theorem cardAt_cons_zero (cell : Cell) (cs : BingoCard) :
    cardAt (cell :: cs) 0 = cell := rfl

theorem cardAt_cons_succ (cell : Cell) (cs : BingoCard) (i : Nat) :
    cardAt (cell :: cs) (i + 1) = cardAt cs i := rfl

/-- The normal number-draw step is monotone on activation. -/
theorem actMono_activateByNumber (c : BingoCard) (n : Nat) :
    ActMono c (activateByNumber c n).1 := by
  induction c with
  | nil => exact actMono_refl []
  | cons hd tl ih =>
    simp only [activateByNumber]
    by_cases h1 : hd.number = n
    · rw [if_pos h1]
      by_cases h2 : hd.isActive = true
      · rw [if_pos h2]; exact actMono_refl _
      · rw [if_neg h2]
        refine ⟨by simp, fun i => ?_⟩
        cases i with
        | zero => exact ⟨rfl, rfl, rfl, fun _ => rfl⟩
        | succ m =>
          rw [cardAt_cons_succ, cardAt_cons_succ]
          exact ⟨rfl, rfl, rfl, fun h => h⟩
    · rw [if_neg h1]
      refine ⟨by simp [ih.1], fun i => ?_⟩
      cases i with
      | zero =>
        rw [cardAt_cons_zero, cardAt_cons_zero]
        exact ⟨rfl, rfl, rfl, fun h => h⟩
      | succ m =>
        rw [cardAt_cons_succ, cardAt_cons_succ]
        exact ih.2 m

/-- The reach-ensuring loop is monotone on activation (and touches nothing
but `isActive` and `isReach`). -/
theorem actMono_ensureReachLoop (o : Nat → Nat) (fuel : Nat) (c : BingoCard)
    (k : Nat) : ActMono c (ensureReachLoop o fuel c k).1 := by
  induction fuel generalizing c k with
  | zero => exact actMono_refl c
  | succ fuel ih =>
    simp only [ensureReachLoop]
    by_cases h1 : hasReachCells c = true
    · rw [if_pos h1]; exact actMono_refl c
    · rw [if_neg h1]
      by_cases h2 : (eligibleIndices c).length = 0
      · rw [if_pos h2]; exact actMono_refl c
      · rw [if_neg h2]
        exact actMono_trans (actMono_trans (actMono_setActiveAt c _)
          (reachOnly_updateReachStatus _).actMono) (ih _ _)

/-- `ensureReachBeforeDraw` is monotone on activation. -/
theorem actMono_ensureReachBeforeDraw (o : Nat → Nat) (c : BingoCard) :
    ActMono c (ensureReachBeforeDraw o c).1 :=
  actMono_trans (reachOnly_updateReachStatus c).actMono (actMono_ensureReachLoop o _ _ 0)

/-- The `fillRandomly` activation loop is monotone on activation. -/
theorem actMono_fillLoop (c : BingoCard) (idxs : List Nat) (r : Nat) :
    ActMono c (fillLoop c idxs r) := by
  induction idxs generalizing c r with
  | nil => cases r <;> exact actMono_refl c
  | cons hd tl ih =>
    cases r with
    | zero => exact actMono_refl c
    | succ r =>
      simp only [fillLoop]
      by_cases h : wouldCompleteLine c hd = true
      · rw [if_pos h]; exact ih c (r + 1)
      · rw [if_neg h]; exact actMono_trans (actMono_setActiveAt c hd) (ih _ r)

theorem actMono_fillRandomly (o : Nat → Nat) (c : BingoCard) :
    ActMono c (fillRandomly o c) := actMono_fillLoop c _ _

/-! ### The forced-swap path of `randomizeBoardActiveState` -/

theorem listSwap_subset {l : List Nat} {i j x : Nat} (h : x ∈ listSwap l i j) :
    x ∈ l := by
  rw [listSwap] at h
  cases hi : l.get? i with
  | none => rw [hi] at h; cases hj : l.get? j <;> rw [hj] at h <;> exact h
  | some a =>
    cases hj : l.get? j with
    | none => rw [hi, hj] at h; exact h
    | some b =>
      rw [hi, hj] at h
      rcases List.mem_or_eq_of_mem_set h with h1 | h1
      · rcases List.mem_or_eq_of_mem_set h1 with h2 | h2
        · exact h2
        · subst h2; exact List.get?_mem hj
      · subst h1; exact List.get?_mem hi

theorem fisherYatesAux_subset (o : Nat → Nat) (l : List Nat) (i : Nat) :
    ∀ x ∈ fisherYatesAux o l i, x ∈ l := by
  induction i generalizing l with
  | zero => intro x hx; exact hx
  | succ n ih =>
    intro x hx
    exact listSwap_subset (ih _ x hx)

theorem fisherYates_subset (o : Nat → Nat) (l : List Nat) :
    ∀ x ∈ fisherYates o l, x ∈ l := fisherYatesAux_subset o l _

/-- Activating a list of cells is monotone. -/
theorem actMono_foldl_setActive (c : BingoCard) (l : List Nat) :
    ActMono c (l.foldl setActiveAt c) := by
  induction l generalizing c with
  | nil => exact actMono_refl c
  | cons hd tl ih =>
    simp only [List.foldl_cons]
    exact actMono_trans (actMono_setActiveAt c hd) (ih _)

/-- Deactivating a list of non-free cells is `FreeSafe` and keeps
`isLine`. -/
theorem freeSafe_deactivateList (c : BingoCard) (l : List Nat)
    (h : ∀ i ∈ l, (cardAt c i).isFree = false) :
    FreeSafe c
      (l.foldl (fun acc i => modifyCell acc i
        (fun cell => { cell with isActive := false })) c) ∧
    ∀ j, (cardAt (l.foldl (fun acc i => modifyCell acc i
        (fun cell => { cell with isActive := false })) c) j).isLine
      = (cardAt c j).isLine := by
  induction l generalizing c with
  | nil => exact ⟨freeSafe_refl c, fun _ => rfl⟩
  | cons hd tl ih =>
    simp only [List.foldl_cons]
    have hstep := freeSafe_deactivate c hd (h hd (List.mem_cons_self hd tl))
    have hrest := ih (modifyCell c hd (fun cell => { cell with isActive := false }))
      (fun i hi => by rw [(hstep.1.2 i).2.1]; exact h i (List.mem_cons_of_mem hd hi))
    exact ⟨freeSafe_trans hstep.1 hrest.1, fun j => (hrest.2 j).trans (hstep.2 j)⟩

/-- `applySwap` with non-free deactivation targets is `FreeSafe` and keeps
`isLine`. -/
theorem applySwap_spec (c : BingoCard) (toOn toOff : List Nat)
    (h : ∀ i ∈ toOff, (cardAt c i).isFree = false) :
    FreeSafe c (applySwap c toOn toOff) ∧
    ∀ j, (cardAt (applySwap c toOn toOff) j).isLine = (cardAt c j).isLine := by
  rw [applySwap]
  have hon := actMono_foldl_setActive c toOn
  have hoff := freeSafe_deactivateList (toOn.foldl setActiveAt c) toOff
    (fun i hi => by rw [(hon.2 i).2.1]; exact h i hi)
  exact ⟨freeSafe_trans hon.freeSafe hoff.1,
    fun j => (hoff.2 j).trans (hon.2 j).2.2.1⟩

/-- Membership in `outsideActives` means the cell is not free. -/
theorem outsideActives_not_free (c : BingoCard) (line : List Nat) :
    ∀ i ∈ outsideActives c line, (cardAt c i).isFree = false := by
  intro i hi
  rw [outsideActives] at hi
  have := (List.mem_filter.mp hi).2
  simp only [Bool.and_eq_true, Bool.not_eq_true'] at this
  exact this.1.2

/-- A successful `trySwapLoop` is `FreeSafe` and keeps `isLine`. -/
theorem trySwapLoop_spec (oOut oIn : Nat → Nat → Nat) (c : BingoCard)
    (candidates : List LineState) (acnt : Nat) (candIdx : List Nat) (pos : Nat)
    (c' : BingoCard)
    (h : trySwapLoop oOut oIn c candidates acnt candIdx pos = some c') :
    FreeSafe c c' ∧ ∀ j, (cardAt c' j).isLine = (cardAt c j).isLine := by
  induction candIdx generalizing pos with
  | nil => simp [trySwapLoop] at h
  | cons hd tl ih =>
    rw [trySwapLoop] at h
    by_cases hlt : (outsideActives c (candidates.getD hd ⟨[], [], []⟩).line).length < acnt
    · rw [if_pos hlt] at h
      exact ih (pos + 1) h
    · rw [if_neg hlt] at h
      have heq := Option.some.inj h
      subst heq
      apply applySwap_spec
      intro i hi
      exact outsideActives_not_free c _ i
        (fisherYates_subset _ _ i (List.take_subset _ _ hi))

/-- A successful `trySwapPhase` is `FreeSafe` and keeps `isLine`. -/
theorem trySwapPhase_spec (o : RandomizeOracle) (phase : Bool) (c : BingoCard)
    (a b : Nat) (c' : BingoCard) (h : trySwapPhase o phase c a b = some c') :
    FreeSafe c c' ∧ ∀ j, (cardAt c' j).isLine = (cardAt c j).isLine :=
  trySwapLoop_spec _ _ c _ b _ 0 c' h

/-- A successful `tryForceReach` is `FreeSafe` and keeps `isLine`. -/
theorem tryForceReach_spec (o : RandomizeOracle) (c : BingoCard)
    (c' : BingoCard) (h : tryForceReach o c = some c') :
    FreeSafe c c' ∧ ∀ j, (cardAt c' j).isLine = (cardAt c j).isLine := by
  rw [tryForceReach] at h
  cases h1 : trySwapPhase o false c 3 1 with
  | some c1 =>
    rw [h1] at h
    exact trySwapPhase_spec o false c 3 1 c' (h1.trans (congrArg some (Option.some.inj h)))
  | none =>
    rw [h1] at h
    exact trySwapPhase_spec o true c 2 2 c' h

/-- The bounded rebuild loop: `FreeSafe`, and all `isLine` marks are clear
afterwards (provided they already are when no attempt remains). -/
theorem randomizeAttempts_spec (o : RandomizeOracle) :
    ∀ (n : Nat) (c : BingoCard) (k : Nat) (c' : BingoCard) (ok : Bool),
    randomizeAttempts o c k n = (c', ok) →
    (n = 0 → ∀ i, (cardAt c i).isLine = false) →
    FreeSafe c c' ∧ ∀ i, (cardAt c' i).isLine = false := by
  intro n
  induction n with
  | zero =>
    intro c k c' ok h h0
    rw [randomizeAttempts] at h
    injection h with h1 h2
    subst h1
    exact ⟨freeSafe_refl c, h0 rfl⟩
  | succ n ih =>
    intro c k c' ok h h0
    have hreset := resetBoard_spec c
    have hfill := actMono_fillRandomly (o.fill k) (resetBoard c)
    have hupd := reachOnly_updateReachStatus (fillRandomly (o.fill k) (resetBoard c))
    have hstep : FreeSafe c (rzStep o c k) :=
      freeSafe_trans hreset.1 (freeSafe_trans hfill.freeSafe hupd.actMono.freeSafe)
    have hline : ∀ i, (cardAt (rzStep o c k) i).isLine = false := by
      intro i
      rw [rzStep, (hupd.2 i).2.2.1, (hfill.2 i).2.2.1]
      exact hreset.2.1 i
    have heq : randomizeAttempts o c k (n + 1)
        = if hasReachCells (rzStep o c k) then (rzStep o c k, true)
          else randomizeAttempts o (rzStep o c k) (k + 1) n := rfl
    rw [heq] at h
    by_cases hr : hasReachCells (rzStep o c k) = true
    · rw [if_pos hr] at h
      injection h with h1 h2
      subst h1
      exact ⟨hstep, hline⟩
    · rw [if_neg hr] at h
      have := ih (rzStep o c k) (k + 1) c' ok h (fun _ => hline)
      exact ⟨freeSafe_trans hstep this.1, this.2⟩

/-- `randomizeBoardActiveState`: `FreeSafe`, and every `isLine` mark is
cleared. -/
theorem randomizeBoardActiveState_spec (o : RandomizeOracle) (c : BingoCard) :
    FreeSafe c (randomizeBoardActiveState o c) ∧
    ∀ i, (cardAt (randomizeBoardActiveState o c) i).isLine = false := by
  rcases hra : randomizeAttempts o c 0 12 with ⟨c1, ok⟩
  have hat := randomizeAttempts_spec o 12 c 0 c1 ok hra (by intro h; cases h)
  rw [randomizeBoardActiveState, hra]
  cases ok with
  | true => exact hat
  | false =>
    simp only [Bool.false_eq_true, if_false]
    cases hfr : tryForceReach o c1 with
    | none => exact hat
    | some c2 =>
      have hsw := tryForceReach_spec o c1 c2 hfr
      have hupd := reachOnly_updateReachStatus c2
      refine ⟨freeSafe_trans hat.1 (freeSafe_trans hsw.1 hupd.actMono.freeSafe), fun i => ?_⟩
      rw [(hupd.2 i).2.2.1, hsw.2 i]
      exact hat.2 i

/-! ### `checkLines` characterization -/

/-- `lineComplete` only depends on the activation states. -/
theorem lineComplete_congr (c c' : BingoCard)
    (h : ∀ i, (cardAt c' i).isActive = (cardAt c i).isActive) (l : List Nat) :
    lineComplete c' l = lineComplete c l := by
  rw [lineComplete, lineComplete]
  induction l with
  | nil => rfl
  | cons hd tl ih => simp [List.all_cons, h hd, ih]

/-- Folding an idempotent per-cell mutation over an index list: the cell at
`i` is transformed exactly when `i` is an in-range member of the list. -/
theorem cardAt_foldl_modify (f : Cell → Cell) (hf : ∀ x, f (f x) = f x)
    (l : List Nat) : ∀ (c : BingoCard) (i : Nat),
    (l.foldl (fun acc j => modifyCell acc j f) c).length = c.length ∧
    cardAt (l.foldl (fun acc j => modifyCell acc j f) c) i
      = if i ∈ l ∧ i < c.length then f (cardAt c i) else cardAt c i := by
  induction l with
  | nil =>
    intro c i
    simp
  | cons hd tl ih =>
    intro c i
    simp only [List.foldl_cons]
    have hlen := length_modifyCell c hd f
    have ihm := ih (modifyCell c hd f) i
    refine ⟨ihm.1.trans hlen, ?_⟩
    rw [ihm.2, hlen]
    by_cases hih : i = hd
    · subst hih
      by_cases hlt : i < c.length
      · rw [cardAt_modifyCell_self c i f hlt]
        by_cases hmem : i ∈ tl
        · rw [if_pos ⟨hmem, hlt⟩, if_pos ⟨List.mem_cons_self i tl, hlt⟩, hf]
        · rw [if_neg (fun h => hmem h.1), if_pos ⟨List.mem_cons_self i tl, hlt⟩]
      · rw [modifyCell_oob c i f (Nat.le_of_not_lt hlt),
          if_neg (fun h => hlt h.2), if_neg (fun h => hlt h.2)]
    · rw [cardAt_modifyCell_ne c hd i f hih]
      by_cases hmem : i ∈ tl
      · by_cases hlt : i < c.length
        · rw [if_pos ⟨hmem, hlt⟩, if_pos ⟨List.mem_cons_of_mem hd hmem, hlt⟩]
        · rw [if_neg (fun h => hlt h.2), if_neg (fun h => hlt h.2)]
      · rw [if_neg (fun h => hmem h.1)]
        rw [if_neg (fun h => (List.mem_cons.mp h.1).elim (fun h1 => hih h1)
          (fun h1 => hmem h1))]

/-- `markLine` sets `isLine` exactly on the in-range members of `line`. -/
theorem markLine_spec (line : List Nat) (c : BingoCard) :
    (markLine c line).length = c.length ∧
    ∀ i, (cardAt (markLine c line) i).number = (cardAt c i).number ∧
      (cardAt (markLine c line) i).isFree = (cardAt c i).isFree ∧
      (cardAt (markLine c line) i).isReach = (cardAt c i).isReach ∧
      (cardAt (markLine c line) i).isActive = (cardAt c i).isActive ∧
      ((cardAt (markLine c line) i).isLine = true ↔
        ((cardAt c i).isLine = true ∨ (i ∈ line ∧ i < c.length))) := by
  have hgen := cardAt_foldl_modify (fun cell => { cell with isLine := true })
    (fun x => rfl) line
  rw [markLine]
  refine ⟨(hgen c 0).1, fun i => ?_⟩
  rw [(hgen c i).2]
  by_cases hcond : i ∈ line ∧ i < c.length
  · rw [if_pos hcond]
    exact ⟨rfl, rfl, rfl, rfl, by simp [hcond]⟩
  · rw [if_neg hcond]
    exact ⟨rfl, rfl, rfl, rfl, by
      constructor
      · exact fun h => Or.inl h
      · rintro (h | h)
        · exact h
        · exact absurd h hcond⟩

/-- The `checkLinesAux` loop: activation states, numbers, free and reach
flags are untouched; `isLine` is set exactly on members of the complete
lines among the scanned ones. -/
theorem checkLinesAux_spec (lines : List (List Nat)) :
    ∀ (c : BingoCard) (cnt : Nat) (nums : List Nat),
    (checkLinesAux lines c cnt nums).1.length = c.length ∧
    ∀ i, (cardAt (checkLinesAux lines c cnt nums).1 i).number = (cardAt c i).number ∧
      (cardAt (checkLinesAux lines c cnt nums).1 i).isFree = (cardAt c i).isFree ∧
      (cardAt (checkLinesAux lines c cnt nums).1 i).isReach = (cardAt c i).isReach ∧
      (cardAt (checkLinesAux lines c cnt nums).1 i).isActive = (cardAt c i).isActive ∧
      ((cardAt (checkLinesAux lines c cnt nums).1 i).isLine = true ↔
        ((cardAt c i).isLine = true ∨
          ∃ line ∈ lines, i ∈ line ∧ i < c.length ∧ lineComplete c line = true)) := by
  induction lines with
  | nil =>
    intro c cnt nums
    exact ⟨rfl, fun i => ⟨rfl, rfl, rfl, rfl, by simp [checkLinesAux]⟩⟩
  | cons hd tl ih =>
    intro c cnt nums
    rw [checkLinesAux]
    by_cases hc : lineComplete c hd = true
    · rw [if_pos hc]
      have hmark := markLine_spec hd c
      have ihm := ih (markLine c hd) (cnt + 1)
        (hd.foldl (fun s i => addNum s (cardAt c i).number) nums)
      refine ⟨ihm.1.trans hmark.1, fun i => ?_⟩
      have hi := (ihm.2 i)
      have hm := hmark.2 i
      refine ⟨hi.1.trans hm.1, hi.2.1.trans hm.2.1, hi.2.2.1.trans hm.2.2.1,
        hi.2.2.2.1.trans hm.2.2.2.1, ?_⟩
      rw [hi.2.2.2.2, hm.2.2.2.2]
      have hcompl : ∀ l, lineComplete (markLine c hd) l = lineComplete c l :=
        lineComplete_congr c _ (fun j => (hmark.2 j).2.2.2.1)
      constructor
      · rintro ((h | ⟨hmem, hlt⟩) | ⟨line, hline, hmem, hlt, hcl⟩)
        · exact Or.inl h
        · exact Or.inr ⟨hd, List.mem_cons_self hd tl, hmem, hlt, hc⟩
        · rw [hcompl line] at hcl
          rw [hmark.1] at hlt
          exact Or.inr ⟨line, List.mem_cons_of_mem hd hline, hmem, hlt, hcl⟩
      · rintro (h | ⟨line, hline, hmem, hlt, hcl⟩)
        · exact Or.inl (Or.inl h)
        · rcases List.mem_cons.mp hline with h1 | h1
          · subst h1; exact Or.inl (Or.inr ⟨hmem, hlt⟩)
          · exact Or.inr ⟨line, h1, hmem, by rwa [hmark.1], by rwa [hcompl line]⟩
    · rw [if_neg hc]
      have ihm := ih c cnt nums
      refine ⟨ihm.1, fun i => ?_⟩
      have hi := ihm.2 i
      refine ⟨hi.1, hi.2.1, hi.2.2.1, hi.2.2.2.1, ?_⟩
      rw [hi.2.2.2.2]
      constructor
      · rintro (h | ⟨line, hline, hmem, hlt, hcl⟩)
        · exact Or.inl h
        · exact Or.inr ⟨line, List.mem_cons_of_mem hd hline, hmem, hlt, hcl⟩
      · rintro (h | ⟨line, hline, hmem, hlt, hcl⟩)
        · exact Or.inl h
        · rcases List.mem_cons.mp hline with h1 | h1
          · subst h1; exact absurd hcl hc
          · exact Or.inr ⟨line, h1, hmem, hlt, hcl⟩

/-- `checkLines` characterization in terms of the input card. -/
theorem checkLines_spec (c : BingoCard) :
    (checkLines c).1.length = c.length ∧
    ∀ i, (cardAt (checkLines c).1 i).number = (cardAt c i).number ∧
      (cardAt (checkLines c).1 i).isFree = (cardAt c i).isFree ∧
      (cardAt (checkLines c).1 i).isReach = (cardAt c i).isReach ∧
      (cardAt (checkLines c).1 i).isActive = (cardAt c i).isActive ∧
      ((cardAt (checkLines c).1 i).isLine = true ↔
        ((cardAt c i).isLine = true ∨
          ∃ line ∈ ALL_LINES, i ∈ line ∧ i < c.length ∧ lineComplete c line = true)) :=
  checkLinesAux_spec ALL_LINES c 0 []

/-! ### Draw-level composition lemmas -/

/-- The normal number-draw step is monotone. -/
theorem actMono_normalCard (o : DrawOracle) (c : BingoCard) :
    ActMono c (normalCard o c) := by
  rw [normalCard]
  by_cases h : isBonusTriggerNumber (drawnNumberOf o) = true
  · rw [if_pos h]; exact actMono_refl c
  · rw [if_neg h]; exact actMono_activateByNumber c (drawnNumberOf o)

/-- The bonus-application phase is monotone on the card. -/
theorem applyBonusPhase_card (o : DrawOracle) (s : GameState) (card1 : BingoCard)
    (n : Nat) : ActMono card1 (applyBonusPhase o s card1 n).card := by
  rw [applyBonusPhase]
  by_cases h1 : s.alwaysBonusMode = AlwaysBonusMode.fixed
  · rw [if_pos h1]
    cases s.alwaysBonusType.bind (registryGet registryOrder) with
    | some t => simpa using actMono_execHandler o.bonus t card1 (some n)
    | none => simpa using actMono_refl card1
  · rw [if_neg h1]
    by_cases h2 : s.alwaysBonusMode = AlwaysBonusMode.random
    · rw [if_pos h2]
      cases pickHandler (enabledHandlers s) o.applyPick with
      | some t => simpa using actMono_execHandler o.bonus t card1 (some n)
      | none => simpa using actMono_refl card1
    · rw [if_neg h2]
      by_cases h3 : (s.alwaysBonusMode ≠ AlwaysBonusMode.disabled && s.pendingBonus) = true
      · rw [if_pos h3]
        cases hmatch : (match s.pendingBonusType.bind (registryGet registryOrder) with
           | some t =>
             if s.enabledBonusTypes.contains t then some t
             else pickHandler (enabledHandlers s) o.applyPick
           | none => pickHandler (enabledHandlers s) o.applyPick) with
        | some t => simpa using actMono_execHandler o.bonus t card1 (some n)
        | none => simpa using actMono_refl card1
      · rw [if_neg h3]
        simpa using actMono_refl card1

/-- Same for the earlier variant's bonus-application phase. -/
theorem legacyApplyBonusPhase_card (o : DrawOracle) (s : LegacyState)
    (card1 : BingoCard) (n : Nat) :
    ActMono card1 (legacyApplyBonusPhase o s card1 n).card := by
  rw [legacyApplyBonusPhase]
  cases s.alwaysBonusType with
  | some t0 =>
    cases hx : registryGet legacyRegistryOrder t0 with
    | some t =>
      simp only [hx]
      simpa using actMono_execHandler o.bonus t card1 (some n)
    | none =>
      simp only [hx]
      simpa using actMono_refl card1
  | none =>
    by_cases hp : s.pendingBonus = true
    · rw [if_pos hp]
      cases hmatch : (match s.pendingBonusType.bind (registryGet legacyRegistryOrder) with
         | some t =>
           if s.enabledBonusTypes.contains t then some t
           else pickHandler (legacyEnabledHandlers s) o.applyPick
         | none => pickHandler (legacyEnabledHandlers s) o.applyPick) with
      | some t =>
        simp only [hmatch]
        simpa using actMono_execHandler o.bonus t card1 (some n)
      | none =>
        simp only [hmatch]
        simpa using actMono_refl card1
    · rw [if_neg hp]
      simpa using actMono_refl card1

/-- The pre-draw phase keeps the free cell active and ends with all
`isLine` marks clear. -/
theorem preDrawCard_spec (o : DrawOracle) (s : GameState) :
    FreeSafe s.card (preDrawCard o s) ∧
    ∀ i, (cardAt (preDrawCard o s) i).isLine = false := by
  rw [preDrawCard]
  by_cases h : s.randomizeBoardEachDraw = true
  · rw [if_pos h]
    exact randomizeBoardActiveState_spec o.rz s.card
  · rw [if_neg h]
    have hreset := resetLineStatus_spec s.card
    have hloop := actMono_ensureReachBeforeDraw o.reach (resetLineStatus s.card)
    refine ⟨freeSafe_trans hreset.1 hloop.freeSafe, fun i => ?_⟩
    rw [(hloop.2 i).2.2.1]
    exact hreset.2 i

/-- Equation for the card stored by `drawMain`. -/
theorem drawMain_card (o : DrawOracle) (s : GameState) :
    (drawMain o s).2.card = updateReachStatus
      (checkLines (applyBonusPhase o s (normalCard o s.card)
        (drawnNumberOf o)).card).1 := by
  simp only [drawMain]

/-- Equations for the pending-bonus state stored by `drawMain`. -/
theorem drawMain_pending (o : DrawOracle) (s : GameState) :
    (drawMain o s).2.pendingBonus
      = (if (queueType o s).isSome then true
         else (applyBonusPhase o s (normalCard o s.card)
           (drawnNumberOf o)).pendingBonus) ∧
    (drawMain o s).2.pendingBonusType
      = (if (queueType o s).isSome then queueType o s
         else (applyBonusPhase o s (normalCard o s.card)
           (drawnNumberOf o)).pendingBonusType) := by
  constructor <;> simp only [drawMain]

/-- Equations for the result record emitted by `drawMain`. -/
theorem drawMain_result (o : DrawOracle) (s : GameState) :
    (drawMain o s).1.drawnNumber = drawnNumberOf o ∧
    (drawMain o s).1.bonusApplied
      = (applyBonusPhase o s (normalCard o s.card) (drawnNumberOf o)).bonusApplied ∧
    (drawMain o s).1.bonusType
      = (applyBonusPhase o s (normalCard o s.card) (drawnNumberOf o)).bonusType ∧
    (drawMain o s).1.bonusQueued = (queueType o s).isSome ∧
    (drawMain o s).1.linesCompleted
      = (checkLines (applyBonusPhase o s (normalCard o s.card)
          (drawnNumberOf o)).card).2.1 ∧
    (drawMain o s).1.score
      = getScore (checkLines (applyBonusPhase o s (normalCard o s.card)
          (drawnNumberOf o)).card).2.1 ∧
    (drawMain o s).1.activatedNumbers
      = (if normalHit o s.card then [drawnNumberOf o] else [])
        ++ (applyBonusPhase o s (normalCard o s.card) (drawnNumberOf o)).bonusNumbers := by
  refine ⟨?_, ?_, ?_, ?_, ?_, ?_, ?_⟩ <;> simp only [drawMain]

/-- `draw` unfolds to the pre-draw phase followed by the main body. -/
theorem draw_eq (o : DrawOracle) (s : GameState) :
    draw o s = drawMain o { s with card := preDrawCard o s } := rfl

theorem card_update (s : GameState) (c : BingoCard) :
    ({ s with card := c } : GameState).card = c := rfl

/-- `checkLines` as step relations: it never touches activation. -/
theorem checkLines_freeSafe (c : BingoCard) :
    FreeSafe c (checkLines c).1 ∧ Monot c (checkLines c).1 := by
  have h := checkLines_spec c
  refine ⟨⟨h.1, fun i => ⟨(h.2 i).1, (h.2 i).2.1, fun _ ha => ?_⟩⟩,
    ⟨h.1, fun i ha => ?_⟩⟩ <;> rw [(h.2 i).2.2.2.1] <;> exact ha

/-- The post-pre-draw body of `draw()` is activation-monotone and keeps the
free cell active: no deactivation happens outside the pre-draw phase. -/
theorem drawMain_card_spec (o : DrawOracle) (s : GameState) :
    FreeSafe s.card (drawMain o s).2.card ∧ Monot s.card (drawMain o s).2.card := by
  rw [(drawMain_card o s)]
  have hn := actMono_normalCard o s.card
  have hb := applyBonusPhase_card o s (normalCard o s.card) (drawnNumberOf o)
  have hc := checkLines_freeSafe (applyBonusPhase o s (normalCard o s.card)
    (drawnNumberOf o)).card
  have hu := reachOnly_updateReachStatus
    (checkLines (applyBonusPhase o s (normalCard o s.card) (drawnNumberOf o)).card).1
  constructor
  · exact freeSafe_trans hn.freeSafe (freeSafe_trans hb.freeSafe (freeSafe_trans hc.1 hu.actMono.freeSafe))
  · refine ⟨?_, fun i ha => ?_⟩
    · rw [hu.1, hc.2.1, hb.1, hn.1]
    · rw [(hu.2 i).2.2.2]
      exact hc.2.2 i (hb.monot.2 i (hn.monot.2 i ha))

/-- `isLine` after `drawMain`: given clear marks on entry, a cell is marked
iff it lies on a line that is fully active in the resulting card. -/
theorem drawMain_isLine (o : DrawOracle) (s : GameState)
    (hline : ∀ i, (cardAt s.card i).isLine = false) :
    ∀ i, ((cardAt (drawMain o s).2.card i).isLine = true ↔
      ∃ line ∈ ALL_LINES, i ∈ line ∧ i < s.card.length ∧
        lineComplete (drawMain o s).2.card line = true) := by
  intro i
  rw [(drawMain_card o s)]
  have hn := actMono_normalCard o s.card
  have hb := applyBonusPhase_card o s (normalCard o s.card) (drawnNumberOf o)
  have hc := checkLines_spec (applyBonusPhase o s (normalCard o s.card)
    (drawnNumberOf o)).card
  have hu := reachOnly_updateReachStatus
    (checkLines (applyBonusPhase o s (normalCard o s.card) (drawnNumberOf o)).card).1
  rw [(hu.2 i).2.2.1, (hc.2 i).2.2.2.2]
  have hln2 : (cardAt (applyBonusPhase o s (normalCard o s.card)
      (drawnNumberOf o)).card i).isLine = false := by
    rw [(hb.2 i).2.2.1, (hn.2 i).2.2.1]
    exact hline i
  rw [hln2]
  have hlen : (applyBonusPhase o s (normalCard o s.card)
      (drawnNumberOf o)).card.length = s.card.length := by
    rw [hb.1, hn.1]
  have hcompl : ∀ line, lineComplete (applyBonusPhase o s (normalCard o s.card)
      (drawnNumberOf o)).card line
      = lineComplete (updateReachStatus (checkLines (applyBonusPhase o s
          (normalCard o s.card) (drawnNumberOf o)).card).1) line := by
    intro line
    have h1 := lineComplete_congr _ _ (fun j => (hc.2 j).2.2.2.1) line
    have h2 := lineComplete_congr _ _ (fun j => (hu.2 j).2.2.2) line
    rw [h2, h1]
  constructor
  · rintro (h | ⟨line, hl, hm, hlt, hcl⟩)
    · cases h
    · exact ⟨line, hl, hm, by rwa [hlen] at hlt, by rwa [hcompl line] at hcl⟩
  · rintro ⟨line, hl, hm, hlt, hcl⟩
    exact Or.inr ⟨line, hl, hm, by rwa [hlen], by rwa [← hcompl line] at hcl⟩

/-! ### The free-cell invariant over all reachable states -/

/-- Exactly one cell is free — index 12, numbered 13 — and it is active;
cell numbers are the canonical 1..25. -/
def FreeInv (c : BingoCard) : Prop :=
  c.length = 25 ∧
  (∀ i, i < 25 → (cardAt c i).number = i + 1 ∧ ((cardAt c i).isFree = true ↔ i = 12)) ∧
  (cardAt c 12).isActive = true

theorem FreeInv_of_freeSafe {c c' : BingoCard} (h : FreeSafe c c')
    (hi : FreeInv c) : FreeInv c' := by
  refine ⟨h.1.trans hi.1, fun i hlt => ?_, ?_⟩
  · rw [(h.2 i).1, (h.2 i).2.1]
    exact hi.2.1 i hlt
  · exact (h.2 12).2.2 ((hi.2.1 12 (by omega)).2.mpr rfl) hi.2.2

/-- Engine states reachable through the public API. -/
inductive Reachable : GameState → Prop where
  | init : Reachable initialGameState
  | draw (o : DrawOracle) (s : GameState) : Reachable s → Reachable (draw o s).2
  | drawMultiple (os : Nat → DrawOracle) (n : Nat) (s : GameState) :
      Reachable s → Reachable (drawMultiple os n s).2
  | reset (s : GameState) : Reachable s → Reachable (resetGame s)
  | setAlways (s : GameState) (mode : AlwaysBonusMode) (t : Option BonusType) :
      Reachable s → Reachable (setAlwaysBonusSetting s mode t)
  | setRandomize (s : GameState) (b : Bool) :
      Reachable s → Reachable (setRandomizeBoardEachDraw s b)
  | setEnabled (s : GameState) (ts : List BonusType) :
      Reachable s → Reachable (setEnabledBonusTypes s ts)

theorem freeInv_initial : FreeInv initialGameState.card := by
  unfold FreeInv initialGameState
  decide

/-- One whole `draw()` keeps the free-cell invariant. -/
theorem draw_freeSafe (o : DrawOracle) (s : GameState) :
    FreeSafe s.card (draw o s).2.card := by
  rw [draw_eq]
  have h1 := (preDrawCard_spec o s).1
  have h2 := (drawMain_card_spec o { s with card := preDrawCard o s }).1
  rw [card_update] at h2
  exact freeSafe_trans h1 h2

theorem freeInv_reachable : ∀ s : GameState, Reachable s → FreeInv s.card := by
  intro s h
  induction h with
  | init => exact freeInv_initial
  | draw o s _ ih => exact FreeInv_of_freeSafe (draw_freeSafe o s) ih
  | drawMultiple os n s _ ih =>
    clear * - ih
    induction n generalizing os s with
    | zero => exact ih
    | succ n ihn =>
      rw [drawMultiple]
      exact ihn (fun i => os (i + 1)) (draw (os 0) s).2
        (FreeInv_of_freeSafe (draw_freeSafe (os 0) s) ih)
  | reset s _ _ =>
    have h1 : FreeInv createInitialCard := by unfold FreeInv; decide
    exact FreeInv_of_freeSafe
      (reachOnly_updateReachStatus createInitialCard).actMono.freeSafe h1
  | setAlways s mode t _ ih =>
    have : (setAlwaysBonusSetting s mode t).card = s.card := by
      rw [setAlwaysBonusSetting]
      by_cases h : mode ≠ AlwaysBonusMode.off
      · rw [if_pos h]
      · rw [if_neg h]
    rwa [this]
  | setRandomize s b _ ih => exact ih
  | setEnabled s ts _ ih => exact ih

/-- All line members are valid card indices. -/
theorem all_lines_mem_lt : ∀ line ∈ ALL_LINES, ∀ i ∈ line, i < 25 := by decide

/-- Deterministic all-zero oracle used for concrete runs. -/
def zeroOracle : DrawOracle :=
  ⟨0, 0, 0, fun _ => 0, fun _ => 0,
   ⟨fun _ _ => 0, fun _ _ => 0, fun _ _ _ => 0, fun _ _ _ => 0⟩, 0, fun _ => 0⟩

/-! ## The claims -/

/-- **C1.** For every reachable engine state (after any sequence of
`draw()`, `drawMultiple(n)`, `reset()` and configuration-setter calls),
exactly one cell of the card has `isFree = true` — the cell at index 12,
which carries number 13 — and that cell has `isActive = true`; since every
reachable state satisfies this, no operation (line reset, board
randomization, draw, or bonus handler) ever sets its `isActive` to
false. -/
theorem claim_C1_free_cell_invariant :
    ∀ s : GameState, Reachable s →
      s.card.length = 25 ∧
      (∀ i, i < 25 → ((cardAt s.card i).isFree = true ↔ i = 12)) ∧
      (cardAt s.card 12).number = 13 ∧
      (cardAt s.card 12).isActive = true := by
  intro s h
  have hi := freeInv_reachable s h
  exact ⟨hi.1, fun i hlt => (hi.2.1 i hlt).2,
    by rw [(hi.2.1 12 (by omega)).1], hi.2.2⟩

theorem claim_C1_free_cell_invariant_witness :
    (cardAt initialGameState.card 12).isActive = true ∧
    (cardAt initialGameState.card 12).number = 13 ∧
    ((cardAt initialGameState.card 0).isFree = true ↔ 0 = 12) := by
  have h := claim_C1_free_cell_invariant initialGameState Reachable.init
  exact ⟨h.2.2.2, h.2.2.1, h.2.1 0 (by omega)⟩

/-- **C2.** Immediately after any `draw()` returns, a cell's `isLine` is
true iff it belongs to one of the 12 fixed lines whose 5 members are all
active at that moment; and the marks are cleared at the start of the next
draw's pre-draw phase — by `resetLineStatus` (or the randomization reset)
before the active state is recomputed — not immediately after scoring. -/
theorem claim_C2_isLine_iff_complete :
    (∀ (o : DrawOracle) (s : GameState), s.card.length = 25 →
      ∀ i, ((cardAt (draw o s).2.card i).isLine = true ↔
        ∃ line ∈ ALL_LINES, i ∈ line ∧
          lineComplete (draw o s).2.card line = true)) ∧
    (∀ (c : BingoCard) (i : Nat), (cardAt (resetLineStatus c) i).isLine = false) ∧
    (∀ (o : DrawOracle) (s : GameState) (i : Nat),
      (cardAt (preDrawCard o s) i).isLine = false) := by
  refine ⟨?_, fun c i => (resetLineStatus_spec c).2 i,
    fun o s i => (preDrawCard_spec o s).2 i⟩
  intro o s h25 i
  rw [draw_eq]
  have hpre := preDrawCard_spec o s
  have hmain := drawMain_isLine o { s with card := preDrawCard o s }
    (by rw [card_update]; exact hpre.2) i
  simp only [card_update] at hmain
  have hlen : (preDrawCard o s).length = 25 := hpre.1.1.trans h25
  rw [hmain]
  constructor
  · rintro ⟨line, hl, hm, _, hcl⟩
    exact ⟨line, hl, hm, hcl⟩
  · rintro ⟨line, hl, hm, hcl⟩
    exact ⟨line, hl, hm, by rw [hlen]; exact all_lines_mem_lt line hl i hm, hcl⟩

set_option maxRecDepth 10000 in
theorem claim_C2_isLine_iff_complete_witness :
    (cardAt (draw { zeroOracle with drawRand := 4 } initialGameState).2.card 0).isLine
      = true ∧
    (cardAt (resetLineStatus
      (draw { zeroOracle with drawRand := 4 } initialGameState).2.card) 0).isLine
      = false := by
  constructor
  · exact (claim_C2_isLine_iff_complete.1 { zeroOracle with drawRand := 4 }
      initialGameState rfl 0).mpr
      ⟨[0, 1, 2, 3, 4], by decide, by decide, by decide⟩
  · exact claim_C2_isLine_iff_complete.2.1 _ 0

/-- **C10.** Switching the always-bonus configuration to any mode other
than `'none'` (`off` here) silently clears the pending-bonus queue, so a
bonus queued by a previous draw of 13 never fires; switching with mode
`'none'` (or a null type in the earlier variant) leaves the queue
untouched. -/
theorem claim_C10_always_mode_discards_queue :
    (∀ (s : GameState) (mode : AlwaysBonusMode) (t : Option BonusType),
      mode ≠ AlwaysBonusMode.off →
        (setAlwaysBonusSetting s mode t).pendingBonus = false ∧
        (setAlwaysBonusSetting s mode t).pendingBonusType = none) ∧
    (∀ (s : GameState) (t : Option BonusType),
      (setAlwaysBonusSetting s AlwaysBonusMode.off t).pendingBonus = s.pendingBonus ∧
      (setAlwaysBonusSetting s AlwaysBonusMode.off t).pendingBonusType
        = s.pendingBonusType) ∧
    (∀ (s : LegacyState) (t : BonusType),
      (setAlwaysBonusType s (some t)).pendingBonus = false ∧
      (setAlwaysBonusType s (some t)).pendingBonusType = none) ∧
    (∀ s : LegacyState,
      (setAlwaysBonusType s none).pendingBonus = s.pendingBonus ∧
      (setAlwaysBonusType s none).pendingBonusType = s.pendingBonusType) := by
  refine ⟨fun s mode t h => ?_, fun s t => ?_, fun s t => ?_, fun s => ?_⟩
  · rw [setAlwaysBonusSetting, if_pos h]
    exact ⟨rfl, rfl⟩
  · rw [setAlwaysBonusSetting, if_neg (by simp)]
    exact ⟨rfl, rfl⟩
  · rw [setAlwaysBonusType]
    exact ⟨rfl, rfl⟩
  · rw [setAlwaysBonusType]
    exact ⟨rfl, rfl⟩

theorem claim_C10_always_mode_discards_queue_witness :
    (setAlwaysBonusSetting initialGameState AlwaysBonusMode.disabled none).pendingBonus
      = false ∧
    (setAlwaysBonusSetting initialGameState AlwaysBonusMode.off none).pendingBonus
      = initialGameState.pendingBonus ∧
    (setAlwaysBonusType legacyInitialState (some BonusType.ACTIVATE_CROSS)).pendingBonus
      = false ∧
    (setAlwaysBonusType legacyInitialState none).pendingBonusType
      = legacyInitialState.pendingBonusType :=
  ⟨(claim_C10_always_mode_discards_queue.1 initialGameState AlwaysBonusMode.disabled
      none (by decide)).1,
   (claim_C10_always_mode_discards_queue.2.1 initialGameState none).1,
   (claim_C10_always_mode_discards_queue.2.2.1 legacyInitialState
      BonusType.ACTIVATE_CROSS).1,
   (claim_C10_always_mode_discards_queue.2.2.2 legacyInitialState).2⟩

/-- **C8.** With `totalDraws = 0` (fresh or just-reset statistics), every
rate/average accessor returns 0 instead of dividing by zero, the
distribution accessor is empty, the CSV accessors are header-only, and
`reset()` restores exactly the empty aggregate. -/
theorem claim_C8_empty_stats_accessors :
    (∀ s : TotalStatistics, s.totalDraws = 0 →
      getHitRate s = 0 ∧ getWinRate s = 0 ∧ getAverageLines s = 0 ∧
      getAverageScore s = 0 ∧ getAverageActiveCount s = 0) ∧
    getLinesDistribution createEmptyStats = [] ∧
    getLinesDistributionCsv createEmptyStats = "score,count" ∧
    getBonusTypeStatsCsv createEmptyStats
      = "bonusType,appliedCount,avgActivated,avgLines,avgScore,cntLine0,cntLine1,cntLine2,cntLine3,cntLine4,cntLine5orMore" ∧
    getBonusTypeLinesDistributionCsv createEmptyStats = "bonusType,lines,count,rate" ∧
    (∀ s : TotalStatistics, resetStats s = createEmptyStats) := by
  refine ⟨fun s h => ?_, by decide, rfl, rfl, rfl, fun _ => rfl⟩
  rw [getHitRate, getWinRate, getAverageLines, getAverageScore, getAverageActiveCount]
  rw [if_pos h, if_pos h, if_pos h, if_pos h, if_pos h]
  exact ⟨rfl, rfl, rfl, rfl, rfl⟩

theorem claim_C8_empty_stats_accessors_witness :
    getHitRate createEmptyStats = 0 ∧ getAverageScore createEmptyStats = 0 :=
  ⟨(claim_C8_empty_stats_accessors.1 createEmptyStats rfl).1,
   (claim_C8_empty_stats_accessors.1 createEmptyStats rfl).2.2.2.1⟩

theorem legacyDraw_eq (o : DrawOracle) (s : LegacyState) :
    legacyDraw o s = legacyDrawMain o { s with card := legacyPreDrawCard o s } := rfl

theorem legacyDrawMain_score (o : DrawOracle) (s : LegacyState) :
    (legacyDrawMain o s).1.score = (legacyDrawMain o s).1.linesCompleted := by
  simp only [legacyDrawMain]

/-- **C6.** The score of every emitted `DrawResult` is a function of
`linesCompleted` alone: the identity in the earlier engine variant, and in
the bonus-aware engine exactly the table 0↦0, 1↦1, 2↦3, 3↦10, 4↦50 and 200
for five or more lines. -/
theorem claim_C6_score_is_table_of_lines :
    (∀ (o : DrawOracle) (s : GameState),
      (draw o s).1.score = getScore (draw o s).1.linesCompleted) ∧
    getScore 0 = 0 ∧ getScore 1 = 1 ∧ getScore 2 = 3 ∧ getScore 3 = 10 ∧
    getScore 4 = 50 ∧ (∀ n, 5 ≤ n → getScore n = 200) ∧
    (∀ (o : DrawOracle) (s : LegacyState),
      (legacyDraw o s).1.score = (legacyDraw o s).1.linesCompleted) := by
  refine ⟨fun o s => ?_, rfl, rfl, rfl, rfl, rfl, fun n hn => ?_, fun o s => ?_⟩
  · rw [draw_eq]
    have h := drawMain_result o { s with card := preDrawCard o s }
    rw [h.2.2.2.2.2.1, h.2.2.2.2.1]
  · rw [getScore, if_neg (by omega), if_neg (by omega), if_neg (by omega),
      if_neg (by omega), if_neg (by omega)]
  · rw [legacyDraw_eq, legacyDrawMain_score]

theorem claim_C6_score_is_table_of_lines_witness :
    (draw zeroOracle initialGameState).1.score
      = getScore (draw zeroOracle initialGameState).1.linesCompleted ∧
    getScore 7 = 200 ∧
    (legacyDraw zeroOracle legacyInitialState).1.score
      = (legacyDraw zeroOracle legacyInitialState).1.linesCompleted :=
  ⟨claim_C6_score_is_table_of_lines.1 zeroOracle initialGameState,
   claim_C6_score_is_table_of_lines.2.2.2.2.2.2.1 7 (by omega),
   claim_C6_score_is_table_of_lines.2.2.2.2.2.2.2 zeroOracle legacyInitialState⟩

/-! ### Reach-ensuring loop preserves the complete-line set (C5) -/

/-- Each fixed line has 5 pairwise distinct members. -/
theorem all_lines_nodup : ∀ line ∈ ALL_LINES, line.Nodup ∧ line.length = 5 := by
  decide

theorem lineComplete_congr_mem (c c' : BingoCard) (line : List Nat)
    (h : ∀ j ∈ line, (cardAt c' j).isActive = (cardAt c j).isActive) :
    lineComplete c' line = lineComplete c line := by
  rw [lineComplete, lineComplete]
  induction line with
  | nil => rfl
  | cons hd tl ih =>
    simp only [List.all_cons, h hd (List.mem_cons_self hd tl),
      ih (fun j hj => h j (List.mem_cons_of_mem hd hj))]

/-- Counting: if one member fails the predicate and all others satisfy it,
the filter keeps all but one element. -/
theorem filter_length_eq_sub_one {l : List Nat} {i : Nat} {p : Nat → Bool}
    (hnd : l.Nodup) (hmem : i ∈ l) (hpi : p i = false)
    (hother : ∀ j ∈ l, j ≠ i → p j = true) :
    (l.filter p).length = l.length - 1 := by
  induction l with
  | nil => cases hmem
  | cons hd tl ih =>
    rcases List.mem_cons.mp hmem with h1 | h1
    · rw [List.filter_cons_of_neg (by rw [h1] at hpi; simp [hpi])]
      have hall : tl.filter p = tl := List.filter_eq_self.mpr
        (fun j hj => hother j (List.mem_cons_of_mem hd hj)
          (fun he => (List.nodup_cons.mp hnd).1 (h1 ▸ he ▸ hj)))
      rw [hall]
      simp
    · have hne : hd ≠ i := fun he => (List.nodup_cons.mp hnd).1 (he ▸ h1)
      rw [List.filter_cons_of_pos (hother hd (List.mem_cons_self hd tl) hne)]
      have := ih (List.nodup_cons.mp hnd).2 h1
        (fun j hj hne2 => hother j (List.mem_cons_of_mem hd hj) hne2)
      have hpos : 0 < tl.length := List.length_pos_of_mem h1
      simp only [List.length_cons, this]
      omega

theorem contains_iff_mem (l : List Nat) (i : Nat) : l.contains i = true ↔ i ∈ l := by
  simp [List.elem_iff, List.contains]

theorem wouldCompleteLine_spec (c : BingoCard) (i : Nat) :
    wouldCompleteLine c i = true ↔
      ∃ line ∈ ALL_LINES, i ∈ line ∧ (lineActives c line).length = 4 := by
  rw [wouldCompleteLine, List.any_eq_true]
  constructor
  · rintro ⟨line, hl, hp⟩
    simp only [Bool.and_eq_true, decide_eq_true_eq] at hp
    exact ⟨line, hl, (contains_iff_mem line i).mp hp.1, hp.2⟩
  · rintro ⟨line, hl, hm, hc⟩
    exact ⟨line, hl, by
      simp only [Bool.and_eq_true, decide_eq_true_eq]
      exact ⟨(contains_iff_mem line i).mpr hm, hc⟩⟩

/-- Activating an eligible cell (inactive, completing no line) leaves the
set of complete lines unchanged. -/
theorem completeLines_activate_eligible (c : BingoCard) (i : Nat)
    (hi : (cardAt c i).isActive = false) (hw : wouldCompleteLine c i = false) :
    completeLines (setActiveAt c i) = completeLines c := by
  rw [completeLines, completeLines]
  apply List.filter_congr
  intro line hline
  by_cases hm : i ∈ line
  · have hnd := all_lines_nodup line hline
    have hbefore : lineComplete c line = false := by
      cases hb : lineComplete c line with
      | false => rfl
      | true =>
        rw [lineComplete, List.all_eq_true] at hb
        rw [hb i hm] at hi
        cases hi
    have hafter : lineComplete (setActiveAt c i) line = false := by
      cases ha : lineComplete (setActiveAt c i) line with
      | false => rfl
      | true =>
        rw [lineComplete, List.all_eq_true] at ha
        have hcount : (lineActives c line).length = 4 := by
          rw [lineActives]
          rw [filter_length_eq_sub_one hnd.1 hm
            (by rw [hi]) (fun j hj hne => ?_), hnd.2]
          have := ha j hj
          rwa [setActiveAt, cardAt_modifyCell_ne c i j _ hne] at this
        rw [(wouldCompleteLine_spec c i).mpr ⟨line, hline, hm, hcount⟩] at hw
        cases hw
    rw [hafter, hbefore]
  · exact lineComplete_congr_mem c (setActiveAt c i) line
      (fun j hj => by
        rw [setActiveAt, cardAt_modifyCell_ne c i j _ (fun he => hm (he ▸ hj))])

theorem completeLines_congr (c c' : BingoCard)
    (h : ∀ i, (cardAt c' i).isActive = (cardAt c i).isActive) :
    completeLines c' = completeLines c := by
  rw [completeLines, completeLines]
  exact List.filter_congr (fun line _ => lineComplete_congr c c' h line)

/-- Eligible candidates are inactive and complete no line. -/
theorem eligibleIndices_spec (c : BingoCard) (i : Nat) (h : i ∈ eligibleIndices c) :
    (cardAt c i).isActive = false ∧ wouldCompleteLine c i = false := by
  rw [eligibleIndices] at h
  have := (List.mem_filter.mp h).2
  simp only [Bool.and_eq_true, decide_eq_true_eq, Bool.not_eq_true'] at this
  exact this

/-- The reach-ensuring loop preserves the complete-line set and performs at
most `fuel` further iterations. -/
theorem ensureReachLoop_spec (o : Nat → Nat) :
    ∀ (fuel : Nat) (c : BingoCard) (k : Nat),
    completeLines (ensureReachLoop o fuel c k).1 = completeLines c ∧
    (ensureReachLoop o fuel c k).2 ≤ k + fuel := by
  intro fuel
  induction fuel with
  | zero => intro c k; exact ⟨rfl, Nat.le_refl k⟩
  | succ fuel ih =>
    intro c k
    rw [ensureReachLoop]
    by_cases h1 : hasReachCells c = true
    · rw [if_pos h1]; exact ⟨rfl, by omega⟩
    · rw [if_neg h1]
      by_cases h2 : (eligibleIndices c).length = 0
      · rw [if_pos h2]; exact ⟨rfl, by omega⟩
      · rw [if_neg h2]
        have hmem : (eligibleIndices c).getD (o k % (eligibleIndices c).length) 0
            ∈ eligibleIndices c :=
          getD_mem _ _ _ (Nat.mod_lt _ (Nat.pos_of_ne_zero h2))
        have helig := eligibleIndices_spec c _ hmem
        have hrec := ih (updateReachStatus (setActiveAt c
          ((eligibleIndices c).getD (o k % (eligibleIndices c).length) 0))) (k + 1)
        refine ⟨hrec.1.trans ?_, by omega⟩
        rw [completeLines_congr _ _
          (fun j => (((reachOnly_updateReachStatus _).2 j).2.2.2))]
        exact completeLines_activate_eligible c _ helig.1 helig.2

/-- **C5.** The pre-draw reach-ensuring phase activates only inactive cells
whose activation completes no line, so the set of complete lines is
unchanged; the loop runs at most `card.length = 25` iterations; and when no
eligible cell exists it returns at once (normally, without forcing a reach
line), so the draw proceeds. -/
theorem claim_C5_ensure_reach_preserves_lines :
    (∀ (o : Nat → Nat) (c : BingoCard),
      completeLines (ensureReachBeforeDraw o c).1 = completeLines c) ∧
    (∀ (o : Nat → Nat) (c : BingoCard),
      (ensureReachBeforeDraw o c).2 ≤ c.length) ∧
    (∀ (o : Nat → Nat) (c : BingoCard), c.length = 25 →
      (ensureReachBeforeDraw o c).2 ≤ 25) ∧
    (∀ (o : Nat → Nat) (c : BingoCard),
      eligibleIndices (updateReachStatus c) = [] →
      ensureReachBeforeDraw o c = (updateReachStatus c, 0)) := by
  have hmain : ∀ (o : Nat → Nat) (c : BingoCard),
      completeLines (ensureReachBeforeDraw o c).1 = completeLines c ∧
      (ensureReachBeforeDraw o c).2 ≤ c.length := by
    intro o c
    rw [ensureReachBeforeDraw]
    have h := ensureReachLoop_spec o c.length (updateReachStatus c) 0
    refine ⟨h.1.trans ?_, by omega⟩
    exact completeLines_congr _ _
      (fun j => ((reachOnly_updateReachStatus c).2 j).2.2.2)
  refine ⟨fun o c => (hmain o c).1, fun o c => (hmain o c).2,
    fun o c h25 => h25 ▸ (hmain o c).2, fun o c helig => ?_⟩
  rw [ensureReachBeforeDraw]
  cases hfuel : c.length with
  | zero => rw [ensureReachLoop]
  | succ m =>
    rw [ensureReachLoop]
    by_cases h1 : hasReachCells (updateReachStatus c) = true
    · rw [if_pos h1]
    · rw [if_neg h1, if_pos (by rw [helig]; rfl)]

theorem claim_C5_ensure_reach_preserves_lines_witness :
    completeLines (ensureReachBeforeDraw (fun _ => 0) createInitialCard).1
      = completeLines createInitialCard ∧
    (ensureReachBeforeDraw (fun _ => 0) createInitialCard).2 ≤ 25 ∧
    ensureReachBeforeDraw (fun _ => 0)
        ((List.range 25).map (fun i => ⟨i + 1, true, decide (i + 1 = 13), false, false⟩))
      = (updateReachStatus
          ((List.range 25).map (fun i => ⟨i + 1, true, decide (i + 1 = 13), false, false⟩)),
         0) :=
  ⟨claim_C5_ensure_reach_preserves_lines.1 (fun _ => 0) createInitialCard,
   claim_C5_ensure_reach_preserves_lines.2.2.1 (fun _ => 0) createInitialCard rfl,
   claim_C5_ensure_reach_preserves_lines.2.2.2 (fun _ => 0) _ (by decide)⟩

/-- **C9.** Cell activation is monotone during the draw and bonus phases:
every bonus handler's `execute` never turns a cell's `isActive` from true
to false, the normal number-draw step only sets `isActive` to true, and the
whole post-pre-draw body of `draw()` is activation-monotone — deactivation
of non-free cells can only happen in the pre-draw phase. -/
theorem claim_C9_activation_monotone :
    (∀ (oracle : Nat → Nat) (t : BonusType) (c : BingoCard) (base : Option Nat),
      (execHandler oracle t c base).1.length = c.length ∧
      ∀ i, (cardAt c i).isActive = true →
        (cardAt (execHandler oracle t c base).1 i).isActive = true) ∧
    (∀ (c : BingoCard) (n : Nat),
      (activateByNumber c n).1.length = c.length ∧
      ∀ i, (cardAt c i).isActive = true →
        (cardAt (activateByNumber c n).1 i).isActive = true) ∧
    (∀ (o : DrawOracle) (s : GameState), Monot s.card (drawMain o s).2.card) := by
  refine ⟨fun oracle t c base => ?_, fun c n => ?_, fun o s => (drawMain_card_spec o s).2⟩
  · have h := actMono_execHandler oracle t c base
    exact ⟨h.1, fun i => (h.2 i).2.2.2⟩
  · have h := actMono_activateByNumber c n
    exact ⟨h.1, fun i => (h.2 i).2.2.2⟩

theorem claim_C9_activation_monotone_witness :
    (cardAt (execHandler (fun _ => 0) BonusType.ACTIVATE_CROSS createInitialCard
      (some 7)).1 12).isActive = true ∧
    (cardAt (activateByNumber createInitialCard 5).1 12).isActive = true ∧
    (execHandler (fun _ => 0) BonusType.RANDOM_THREE_WITH_MISS createInitialCard
      none).1.length = createInitialCard.length :=
  ⟨(claim_C9_activation_monotone.1 (fun _ => 0) BonusType.ACTIVATE_CROSS
      createInitialCard (some 7)).2 12 (by decide),
   (claim_C9_activation_monotone.2.1 createInitialCard 5).2 12 (by decide),
   (claim_C9_activation_monotone.1 (fun _ => 0) BonusType.RANDOM_THREE_WITH_MISS
      createInitialCard none).1⟩

/-! ### Queued-bonus fallback (C3) -/

theorem pickHandler_spec (hs : List BonusType) (p : Nat) :
    (hs.length = 0 → pickHandler hs p = none) ∧
    (hs.length ≠ 0 → ∃ t, pickHandler hs p = some t ∧ t ∈ hs) := by
  constructor
  · intro h; rw [pickHandler, if_pos h]
  · intro h
    rw [pickHandler, if_neg h]
    have hlt : p % hs.length < hs.length := Nat.mod_lt _ (Nat.pos_of_ne_zero h)
    cases hx : hs.get? (p % hs.length) with
    | none =>
      rw [List.get?_eq_none] at hx
      omega
    | some t => exact ⟨t, rfl, List.get?_mem hx⟩

theorem registryGet_eq_some {reg : List BonusType} {t t' : BonusType}
    (h : registryGet reg t = some t') : t' = t := by
  rw [registryGet] at h
  by_cases hc : reg.contains t = true
  · rw [if_pos hc] at h; exact (Option.some.inj h).symm
  · rw [if_neg hc] at h; cases h

/-- Members of the enabled-handler list are in the enabled set. -/
theorem enabledHandlers_mem (s : GameState) (t : BonusType)
    (h : t ∈ enabledHandlers s) : s.enabledBonusTypes.contains t = true := by
  rw [enabledHandlers] at h
  exact (List.mem_filter.mp h).2

/-- Under a pending bonus whose kind is no longer enabled (no always mode),
the application phase falls back to a random enabled handler — or none at
all — and clears the queue either way. -/
theorem applyBonusPhase_fallback (o : DrawOracle) (s : GameState)
    (card1 : BingoCard) (n : Nat) (k : BonusType)
    (hmode : s.alwaysBonusMode = AlwaysBonusMode.off)
    (hp : s.pendingBonus = true)
    (hk : s.pendingBonusType = some k)
    (hdis : s.enabledBonusTypes.contains k = false) :
    ((enabledHandlers s).length = 0 →
      (applyBonusPhase o s card1 n).bonusApplied = false ∧
      (applyBonusPhase o s card1 n).bonusType = none ∧
      (applyBonusPhase o s card1 n).pendingBonus = false) ∧
    ((enabledHandlers s).length ≠ 0 →
      ∃ t, (applyBonusPhase o s card1 n).bonusApplied = true ∧
        (applyBonusPhase o s card1 n).bonusType = some t ∧
        t ∈ enabledHandlers s ∧ t ≠ k ∧
        (applyBonusPhase o s card1 n).pendingBonus = false) := by
  rw [applyBonusPhase, if_neg (by rw [hmode]; intro h; cases h),
    if_neg (by rw [hmode]; intro h; cases h),
    if_pos (by rw [hmode, hp]; rfl), hk]
  have hhandler : (match (some k).bind (registryGet registryOrder) with
      | some t =>
        if s.enabledBonusTypes.contains t then some t
        else pickHandler (enabledHandlers s) o.applyPick
      | none => pickHandler (enabledHandlers s) o.applyPick)
      = pickHandler (enabledHandlers s) o.applyPick := by
    rw [Option.bind]
    cases hreg : registryGet registryOrder k with
    | none => rfl
    | some t' =>
      have := registryGet_eq_some hreg
      subst this
      simp only []
      rw [if_neg (by rw [hdis]; intro h; cases h)]
  rw [hhandler]
  constructor
  · intro hlen
    rw [(pickHandler_spec (enabledHandlers s) o.applyPick).1 hlen]
    exact ⟨rfl, rfl, rfl⟩
  · intro hlen
    obtain ⟨t, hpick, hmem⟩ := (pickHandler_spec (enabledHandlers s) o.applyPick).2 hlen
    rw [hpick]
    refine ⟨t, rfl, rfl, hmem, fun he => ?_, rfl⟩
    rw [enabledHandlers_mem s k (he ▸ hmem)] at hdis
    cases hdis

/-- **C3.** If a queued bonus kind has been disabled before the next draw
(no always mode active), that draw applies a random still-enabled kind
instead; with no enabled kind at all no handler runs and `bonusApplied`
stays false; in both cases the pending queue is consumed (it remains set
only if this very draw queued anew), and the draw function is total — no
exception path exists. -/
theorem claim_C3_disabled_pending_fallback (o : DrawOracle) (s : GameState)
    (k : BonusType)
    (hmode : s.alwaysBonusMode = AlwaysBonusMode.off)
    (hp : s.pendingBonus = true)
    (hk : s.pendingBonusType = some k)
    (hdis : s.enabledBonusTypes.contains k = false) :
    ((enabledHandlers s).length = 0 →
      (draw o s).1.bonusApplied = false ∧ (draw o s).1.bonusType = none) ∧
    ((enabledHandlers s).length ≠ 0 →
      ∃ t, (draw o s).1.bonusApplied = true ∧ (draw o s).1.bonusType = some t ∧
        t ∈ enabledHandlers s ∧ t ≠ k) ∧
    (draw o s).2.pendingBonus = (draw o s).1.bonusQueued := by
  rw [draw_eq]
  have hres := drawMain_result o { s with card := preDrawCard o s }
  have hpend := drawMain_pending o { s with card := preDrawCard o s }
  have hfall := applyBonusPhase_fallback o { s with card := preDrawCard o s }
    (normalCard o ({ s with card := preDrawCard o s } : GameState).card)
    (drawnNumberOf o) k hmode hp hk hdis
  rw [show enabledHandlers { s with card := preDrawCard o s } = enabledHandlers s
    from rfl] at hfall
  refine ⟨fun hlen => ?_, fun hlen => ?_, ?_⟩
  · rw [hres.2.1, hres.2.2.1]
    exact ⟨(hfall.1 hlen).1, (hfall.1 hlen).2.1⟩
  · obtain ⟨t, h1, h2, h3, h4, _⟩ := hfall.2 hlen
    rw [hres.2.1, hres.2.2.1]
    exact ⟨t, h1, h2, h3, h4⟩
  · rw [hpend.1, hres.2.2.2.1]
    by_cases hq : (queueType o { s with card := preDrawCard o s }).isSome = true
    · rw [if_pos hq, hq]
    · rw [if_neg hq]
      have hap : (applyBonusPhase o { s with card := preDrawCard o s }
          (normalCard o ({ s with card := preDrawCard o s } : GameState).card)
          (drawnNumberOf o)).pendingBonus = false := by
        by_cases hlen : (enabledHandlers s).length = 0
        · exact (hfall.1 hlen).2.2
        · obtain ⟨t, _, _, _, _, h5⟩ := hfall.2 hlen
          exact h5
      rw [hap]
      simp only [Bool.not_eq_true] at hq
      rw [hq]

/-- State with a queued bonus whose kind was then disabled (one other kind
still enabled). -/
def c3StateEnabled : GameState :=
  { initialGameState with
    pendingBonus := true
    pendingBonusType := some BonusType.UNLOCK_RANDOM_ONE
    enabledBonusTypes := [BonusType.ACTIVATE_CROSS] }

/-- Same with every bonus kind disabled. -/
def c3StateEmpty : GameState :=
  { initialGameState with
    pendingBonus := true
    pendingBonusType := some BonusType.UNLOCK_RANDOM_ONE
    enabledBonusTypes := [] }

set_option maxRecDepth 10000 in
theorem claim_C3_disabled_pending_fallback_witness :
    ((draw zeroOracle c3StateEnabled).1.bonusApplied = true ∧
      (draw zeroOracle c3StateEnabled).1.bonusType
        = some BonusType.ACTIVATE_CROSS) ∧
    ((draw zeroOracle c3StateEmpty).1.bonusApplied = false ∧
      (draw zeroOracle c3StateEmpty).2.pendingBonus = false) := by
  constructor
  · obtain ⟨t, h1, h2, h3, h4⟩ := (claim_C3_disabled_pending_fallback zeroOracle
      c3StateEnabled BonusType.UNLOCK_RANDOM_ONE rfl rfl rfl (by decide)).2.1
      (by decide)
    have ht : t = BonusType.ACTIVATE_CROSS := by
      have hpred := (List.mem_filter.mp h3).2
      revert hpred
      cases t <;> decide
    exact ⟨h1, by rw [h2, ht]⟩
  · have hc := claim_C3_disabled_pending_fallback zeroOracle c3StateEmpty
      BonusType.UNLOCK_RANDOM_ONE rfl rfl rfl (by decide)
    refine ⟨(hc.1 (by decide)).1, ?_⟩
    rw [hc.2.2]
    decide

/-! ### Row-line bonus characterization (C4) -/

theorem activateCell_of_active (c : BingoCard) (i : Nat) (h1 : i < c.length)
    (h2 : (cardAt c i).isActive = true) : activateCell c i = (c, none) := by
  rw [activateCell, if_pos h1, if_pos h2]

theorem activateCell_of_inactive (c : BingoCard) (i : Nat) (h1 : i < c.length)
    (h2 : (cardAt c i).isActive = false) :
    activateCell c i = (setActiveAt c i, some (cardAt c i).number) := by
  rw [activateCell, if_pos h1, if_neg (by rw [h2]; intro h; cases h)]

/-- The handler loop returns exactly the numbers of the previously inactive
targets, in target order. -/
theorem activateTargets_numbers : ∀ (ts : List Nat) (c : BingoCard), ts.Nodup →
    (∀ t ∈ ts, t < c.length) →
    (activateTargets c ts).2
      = (ts.filter (fun t => (cardAt c t).isActive = false)).map
          (fun t => (cardAt c t).number) := by
  intro ts
  induction ts with
  | nil => intro c _ _; rfl
  | cons hd tl ih =>
    intro c hnd hb
    have hhd : hd < c.length := hb hd (List.mem_cons_self hd tl)
    rw [activateTargets]
    cases hact : (cardAt c hd).isActive with
    | true =>
      rw [activateCell_of_active c hd hhd hact]
      rw [List.filter_cons_of_neg (by rw [hact]; simp)]
      exact ih c (List.nodup_cons.mp hnd).2
        (fun t ht => hb t (List.mem_cons_of_mem hd ht))
    | false =>
      rw [activateCell_of_inactive c hd hhd hact]
      rw [List.filter_cons_of_pos (by rw [hact]; simp)]
      have hrec := ih (setActiveAt c hd) (List.nodup_cons.mp hnd).2
        (fun t ht => by
          rw [setActiveAt, length_modifyCell]
          exact hb t (List.mem_cons_of_mem hd ht))
      have hne : ∀ t ∈ tl, cardAt (setActiveAt c hd) t = cardAt c t :=
        fun t ht => by
          rw [setActiveAt]
          exact cardAt_modifyCell_ne c hd t _
            (fun he => (List.nodup_cons.mp hnd).1 (he ▸ ht))
      have hfilter : tl.filter (fun t => (cardAt (setActiveAt c hd) t).isActive = false)
          = tl.filter (fun t => (cardAt c t).isActive = false) :=
        List.filter_congr (fun t ht => by rw [hne t ht])
      have hmap : (tl.filter (fun t => (cardAt c t).isActive = false)).map
            (fun t => (cardAt (setActiveAt c hd) t).number)
          = (tl.filter (fun t => (cardAt c t).isActive = false)).map
            (fun t => (cardAt c t).number) :=
        List.map_congr_left (fun t ht => by rw [hne t (List.mem_filter.mp ht).1])
      simp only [hrec, hfilter, hmap, List.map_cons]

/-- `activateByNumber` on a card whose numbers are `base+1 .. base+len`
finds and activates exactly the cell at offset `n - base - 1`. -/
theorem activateByNumber_spec : ∀ (c : BingoCard) (n base : Nat),
    (∀ i, i < c.length → (cardAt c i).number = base + i + 1) →
    base + 1 ≤ n → n ≤ base + c.length →
    (activateByNumber c n).2 = !(cardAt c (n - base - 1)).isActive ∧
    (activateByNumber c n).1
      = if (cardAt c (n - base - 1)).isActive then c
        else setActiveAt c (n - base - 1) := by
  intro c
  induction c with
  | nil => intro n base _ h1 h2; simp at h1 h2; omega
  | cons hd tl ih =>
    intro n base hnum h1 h2
    have hhd : hd.number = base + 1 := by
      have := hnum 0 (by simp)
      simpa [cardAt_cons_zero] using this
    rw [activateByNumber]
    by_cases he : n = base + 1
    · have hidx : n - base - 1 = 0 := by omega
      rw [if_pos (by rw [hhd]; omega), hidx, cardAt_cons_zero]
      cases hact : hd.isActive with
      | true => exact ⟨rfl, by simp⟩
      | false =>
        refine ⟨rfl, ?_⟩
        rw [if_neg (fun h => by cases h)]
        rfl
    · have hne : ¬(hd.number = n) := by rw [hhd]; omega
      rw [if_neg hne]
      have hrec := ih n (base + 1)
        (fun i hi => by
          have := hnum (i + 1) (by simpa using Nat.succ_lt_succ hi)
          rw [cardAt_cons_succ] at this
          rw [this]
          omega)
        (by omega) (by simpa [Nat.add_comm, Nat.add_assoc, Nat.add_left_comm] using h2)
      have hidx : n - base - 1 = (n - (base + 1) - 1) + 1 := by omega
      rw [hidx, cardAt_cons_succ]
      refine ⟨?_, ?_⟩
      · simp only []
        exact hrec.1
      · simp only []
        rw [hrec.2]
        by_cases hact : (cardAt tl (n - (base + 1) - 1)).isActive = true
        · rw [if_pos hact, if_pos hact]
        · rw [if_neg hact, if_neg hact]
          rfl

/-- Facts about the row targets, for every valid base index. -/
theorem rowLineTargets_facts : ∀ b, b < 25 →
    (rowLineTargets b).Nodup ∧ (∀ t ∈ rowLineTargets b, t < 25) ∧
    b ∈ rowLineTargets b := by
  decide

theorem drawnNumberOf_bounds (o : DrawOracle) :
    1 ≤ drawnNumberOf o ∧ drawnNumberOf o ≤ 25 := by
  rw [drawnNumberOf]
  have := Nat.mod_lt o.drawRand (show 0 < 25 by omega)
  omega

theorem getBaseIndex_drawn (o : DrawOracle) :
    getBaseIndex (some (drawnNumberOf o)) = some (drawnNumberOf o - 1) := by
  have hb := drawnNumberOf_bounds o
  rw [getBaseIndex, if_neg (by omega), if_pos (by omega)]

/-- The application phase in fixed mode runs exactly the configured
handler. -/
theorem applyBonusPhase_fixed (o : DrawOracle) (s : GameState) (card1 : BingoCard)
    (n : Nat) (t : BonusType)
    (hmode : s.alwaysBonusMode = AlwaysBonusMode.fixed)
    (htype : s.alwaysBonusType = some t)
    (hreg : registryGet registryOrder t = some t) :
    applyBonusPhase o s card1 n
      = ⟨(execHandler o.bonus t card1 (some n)).1,
         (execHandler o.bonus t card1 (some n)).2,
         true, some t, s.pendingBonus, s.pendingBonusType⟩ := by
  rw [applyBonusPhase, if_pos hmode, htype]
  simp only [Option.bind, hreg]

/-- The row-line handler on the drawn base number. -/
theorem execHandler_rowLine (oracle : Nat → Nat) (c : BingoCard) (n : Nat)
    (h1 : 1 ≤ n) (h2 : n ≤ 25) :
    execHandler oracle BonusType.ACTIVATE_ROW_LINE c (some n)
      = activateTargets c (rowLineTargets (n - 1)) := by
  simp only [execHandler, baseTargetsHandler, getBaseIndex]
  rw [if_neg (by omega), if_pos (by omega)]

theorem mem_map_add_one_filter (l : List Nat) (p : Nat → Bool) (m : Nat) :
    m ∈ (l.filter p).map (fun t => t + 1) ↔ ∃ t ∈ l, p t = true ∧ m = t + 1 := by
  rw [List.mem_map]
  constructor
  · rintro ⟨t, ht, he⟩
    rcases List.mem_filter.mp ht with ⟨hm1, hm2⟩
    exact ⟨t, hm1, hm2, he.symm⟩
  · rintro ⟨t, hm1, hm2, he⟩
    exact ⟨t, List.mem_filter.mpr ⟨hm1, hm2⟩, he.symm⟩

theorem nodup_map_add_one_filter (l : List Nat) (p : Nat → Bool) (h : l.Nodup) :
    ((l.filter p).map (fun t => t + 1)).Nodup :=
  (h.filter p).map (fun a b hab => by omega)

/-- Membership in the activated-number list of a target scan. -/
theorem mem_activated_iff (l : List Nat) (c : BingoCard) (m : Nat) :
    m ∈ (l.filter (fun t => (cardAt c t).isActive = false)).map (fun t => t + 1)
      ↔ ∃ t ∈ l, m = t + 1 ∧ (cardAt c t).isActive = false := by
  rw [mem_map_add_one_filter]
  constructor
  · rintro ⟨t, h1, h2, h3⟩
    exact ⟨t, h1, h3, by simpa using h2⟩
  · rintro ⟨t, h1, h2, h3⟩
    exact ⟨t, h1, by simpa using h3, h2⟩

/-- Engine state with the row-line bonus forced always-on. -/
def c4State : GameState :=
  setAlwaysBonusSetting initialGameState AlwaysBonusMode.fixed
    (some BonusType.ACTIVATE_ROW_LINE)

/-- Oracle that draws number 13. -/
def c4Oracle : DrawOracle := { zeroOracle with drawRand := 12 }

set_option maxRecDepth 100000 in
/-- **C4 counterexample.** Fresh engine, `activate-row-line` forced
always-on, drawn number 13: the activated numbers do *not* contain 13 even
though 13 is one of the 5 numbers of the row containing it — pre-active
cells (here the free cell) are skipped, refuting "activated numbers equal
exactly the 5 numbers of that row". -/
theorem claim_C4_counterexample :
    (draw c4Oracle c4State).1.drawnNumber = 13 ∧
    13 ∈ (rowLineTargets (13 - 1)).map (fun t => t + 1) ∧
    ¬ 13 ∈ (draw c4Oracle c4State).1.activatedNumbers := by
  refine ⟨by decide, by decide, by decide⟩

/-- **C4 (amended).** Fresh-or-any engine state satisfying the free-cell
invariant, `activate-row-line` forced always-on, drawn number `n`: the
draw's activated numbers are exactly the numbers of the cells of the row
containing `n` that were still inactive after the pre-draw phase — each
appearing once; row cells that were already active (such as the free cell)
are skipped and not reported. -/
theorem claim_C4_amended_row_line (o : DrawOracle) (s : GameState)
    (hmode : s.alwaysBonusMode = AlwaysBonusMode.fixed)
    (htype : s.alwaysBonusType = some BonusType.ACTIVATE_ROW_LINE)
    (hinv : FreeInv s.card) :
    (draw o s).1.activatedNumbers.Nodup ∧
    ∀ m, m ∈ (draw o s).1.activatedNumbers ↔
      ∃ t ∈ rowLineTargets (drawnNumberOf o - 1),
        m = t + 1 ∧ (cardAt (preDrawCard o s) t).isActive = false := by
  have hb := drawnNumberOf_bounds o
  have hbase : drawnNumberOf o - 1 < 25 := by omega
  have hrt := rowLineTargets_facts (drawnNumberOf o - 1) hbase
  have hinv1 : FreeInv (preDrawCard o s) :=
    FreeInv_of_freeSafe (preDrawCard_spec o s).1 hinv
  rw [draw_eq]
  have hres := (drawMain_result o { s with card := preDrawCard o s }).2.2.2.2.2.2
  have happ := applyBonusPhase_fixed o { s with card := preDrawCard o s }
    (normalCard o ({ s with card := preDrawCard o s } : GameState).card)
    (drawnNumberOf o) BonusType.ACTIVATE_ROW_LINE hmode htype (by decide)
  rw [hres, happ]
  simp only [card_update]
  rw [execHandler_rowLine o.bonus _ (drawnNumberOf o) hb.1 hb.2]
  -- the card after the normal activation step
  have hnorm := actMono_normalCard o (preDrawCard o s)
  have hlen2 : (normalCard o (preDrawCard o s)).length = 25 :=
    hnorm.1.trans hinv1.1
  have hnum2 : ∀ t ∈ rowLineTargets (drawnNumberOf o - 1),
      (cardAt (normalCard o (preDrawCard o s)) t).number = t + 1 := by
    intro t ht
    rw [(hnorm.2 t).1]
    exact (hinv1.2.1 t (hrt.2.1 t ht)).1
  have hnums := activateTargets_numbers (rowLineTargets (drawnNumberOf o - 1))
    (normalCard o (preDrawCard o s)) hrt.1
    (fun t ht => by rw [hlen2]; exact hrt.2.1 t ht)
  have hmap : ((rowLineTargets (drawnNumberOf o - 1)).filter
        (fun t => (cardAt (normalCard o (preDrawCard o s)) t).isActive = false)).map
        (fun t => (cardAt (normalCard o (preDrawCard o s)) t).number)
      = ((rowLineTargets (drawnNumberOf o - 1)).filter
        (fun t => (cardAt (normalCard o (preDrawCard o s)) t).isActive = false)).map
        (fun t => t + 1) :=
    List.map_congr_left (fun t ht => hnum2 t (List.mem_filter.mp ht).1)
  rw [show (activateTargets (normalCard o (preDrawCard o s))
      (rowLineTargets (drawnNumberOf o - 1))).2
      = ((rowLineTargets (drawnNumberOf o - 1)).filter
          (fun t => (cardAt (normalCard o (preDrawCard o s)) t).isActive = false)).map
          (fun t => t + 1) from hnums.trans hmap]
  by_cases htrig : isBonusTriggerNumber (drawnNumberOf o) = true
  · -- drawn 13: no normal activation, plain filter over the pre-draw card
    have hhit : normalHit o (preDrawCard o s) = false := by
      rw [normalHit, if_pos htrig]
    have hcard : normalCard o (preDrawCard o s) = preDrawCard o s := by
      rw [normalCard, if_pos htrig]
    rw [hhit, hcard]
    simp only [Bool.false_eq_true, if_false, List.nil_append]
    exact ⟨nodup_map_add_one_filter _ _ hrt.1,
      fun m => mem_activated_iff _ _ m⟩
  · -- ordinary number: the drawn cell is activated first, then the row
    have hspec := activateByNumber_spec (preDrawCard o s) (drawnNumberOf o) 0
      (fun i hi => by
        rw [hinv1.1] at hi
        rw [(hinv1.2.1 i hi).1]
        omega)
      (by omega) (by rw [hinv1.1]; omega)
    have hhit : normalHit o (preDrawCard o s)
        = !(cardAt (preDrawCard o s) (drawnNumberOf o - 1)).isActive := by
      rw [normalHit, if_neg htrig]
      simpa using hspec.1
    have hcard : normalCard o (preDrawCard o s)
        = if (cardAt (preDrawCard o s) (drawnNumberOf o - 1)).isActive then
            preDrawCard o s
          else setActiveAt (preDrawCard o s) (drawnNumberOf o - 1) := by
      rw [normalCard, if_neg htrig]
      simpa using hspec.2
    by_cases hact : (cardAt (preDrawCard o s) (drawnNumberOf o - 1)).isActive = true
    · -- the drawn cell was already active: no hit, card unchanged
      have hhit2 : normalHit o (preDrawCard o s) = false := by
        rw [hhit, hact]
        rfl
      have hcard2 : normalCard o (preDrawCard o s) = preDrawCard o s := by
        rw [hcard, if_pos hact]
      rw [hhit2, hcard2]
      simp only [Bool.false_eq_true, if_false, List.nil_append]
      exact ⟨nodup_map_add_one_filter _ _ hrt.1,
        fun m => mem_activated_iff _ _ m⟩
    · -- hit: the drawn number comes first, the row skips it
      have hact' : (cardAt (preDrawCard o s) (drawnNumberOf o - 1)).isActive = false :=
        by revert hact; cases (cardAt (preDrawCard o s) (drawnNumberOf o - 1)).isActive
           <;> simp
      have hhit2 : normalHit o (preDrawCard o s) = true := by
        rw [hhit, hact']
        rfl
      have hcard2 : normalCard o (preDrawCard o s)
          = setActiveAt (preDrawCard o s) (drawnNumberOf o - 1) := by
        rw [hcard, if_neg (by rw [hact']; intro h; cases h)]
      rw [hhit2, hcard2]
      have hif : (if (true : Bool) = true then [drawnNumberOf o] else ([] : List Nat))
          = [drawnNumberOf o] := rfl
      rw [hif, List.singleton_append]
      have hc2b : (cardAt (setActiveAt (preDrawCard o s) (drawnNumberOf o - 1))
          (drawnNumberOf o - 1)).isActive = true := by
        rw [setActiveAt, cardAt_modifyCell_self _ _ _ (by rw [hinv1.1]; omega)]
      have hc2t : ∀ t, t ≠ drawnNumberOf o - 1 →
          cardAt (setActiveAt (preDrawCard o s) (drawnNumberOf o - 1)) t
            = cardAt (preDrawCard o s) t := by
        intro t ht
        rw [setActiveAt]
        exact cardAt_modifyCell_ne _ _ _ _ ht
      constructor
      · -- no duplicates: head n never reappears (its cell is now active)
        rw [List.nodup_cons]
        refine ⟨fun hmem => ?_, nodup_map_add_one_filter _ _ hrt.1⟩
        rcases (mem_activated_iff _ _ _).mp hmem with ⟨t, _, he, hp⟩
        have htb : t = drawnNumberOf o - 1 := by omega
        rw [htb, hc2b] at hp
        cases hp
      · intro m
        rw [List.mem_cons, mem_activated_iff]
        constructor
        · rintro (he | ⟨t, ht, he, hp⟩)
          · exact ⟨drawnNumberOf o - 1, hrt.2.2, by omega, hact'⟩
          · by_cases htb : t = drawnNumberOf o - 1
            · rw [htb, hc2b] at hp; cases hp
            · rw [hc2t t htb] at hp
              exact ⟨t, ht, he, hp⟩
        · rintro ⟨t, ht, he, hp⟩
          by_cases htb : t = drawnNumberOf o - 1
          · left; omega
          · right
            exact ⟨t, ht, he, by rw [hc2t t htb]; exact hp⟩

set_option maxRecDepth 100000 in
theorem claim_C4_amended_row_line_witness :
    (draw c4Oracle c4State).1.activatedNumbers.Nodup ∧
    8 ∈ (draw c4Oracle c4State).1.activatedNumbers := by
  have h := claim_C4_amended_row_line c4Oracle c4State rfl rfl (by
    rw [show c4State.card = createInitialCard from rfl]
    unfold FreeInv
    decide)
  exact ⟨h.1, (h.2 8).mpr ⟨7, by decide, by decide, by decide⟩⟩

/-! ### `getCard()` aliasing model (C7)

In JavaScript, `getCard()` returns `[...this.card]`: a *new* array whose
entries are the *same* cell objects.  The value-level embedding `getCard`
cannot express object identity, so sharing is modelled explicitly: a heap
of cell objects indexed by reference, the engine's card as a list of
references, and `getCard` returning a fresh list holding the same
references.  Caller-side mutations of the returned *sequence* (reordering,
replacing entries) build a new list value and never touch the heap or the
engine's own reference list; caller-side mutations of a returned *cell*
write to the shared heap. -/

/-- Heap of cell objects; a reference is an index into it. -/
structure CellHeap where
  cells : List Cell
deriving Repr

/-- Dereference. -/
def readRef (h : CellHeap) (r : Nat) : Cell := h.cells.getD r defaultCell

/-- Write the `isActive` field of the object behind `r` (what
`returnedCard[k].isActive = b` does in JS). -/
def writeRefActive (h : CellHeap) (r : Nat) (b : Bool) : CellHeap :=
  ⟨modifyCell h.cells r (fun cell => { cell with isActive := b })⟩

/-- The card as the engine reads it through its reference list. -/
def engineCardView (h : CellHeap) (refs : List Nat) : List Cell :=
  refs.map (readRef h)

/-- `getCard()` = `[...this.card]`: a fresh array with the same refs. -/
def getCardRefs (refs : List Nat) : List Nat := refs

/-- The fresh engine's heap (one object per cell of the initial card). -/
def initialHeap : CellHeap := ⟨createInitialCard⟩

/-- The fresh engine's card: references 0..24 in order. -/
def initialRefs : List Nat := List.range 25

/-- **C7 counterexample.** Mutating a field of a cell taken from the value
`getCard()` returns *does* change the engine's internal card state: the
copy is shallow, the cell objects are shared. -/
theorem claim_C7_counterexample :
    engineCardView
        (writeRefActive initialHeap ((getCardRefs initialRefs).getD 0 0) true)
        initialRefs
      ≠ engineCardView initialHeap initialRefs := by
  decide

/-- **C7 (amended).** `getCard()` is a shallow defensive copy: the returned
*sequence* is a fresh array over the very same cell references
(`getCardRefs refs = refs`), so reordering or replacing its entries builds
a new list without touching the engine's card; but writing a field through
a returned reference updates the shared heap, and the engine's view
changes exactly at the positions holding that reference. -/
theorem claim_C7_amended_shallow_copy (h : CellHeap) (refs : List Nat)
    (k j : Nat) (b : Bool) (hj : j < refs.length) :
    getCardRefs refs = refs ∧
    (engineCardView (writeRefActive h ((getCardRefs refs).getD k 0) b) refs).getD j
        defaultCell
      = (if refs.getD j 0 = refs.getD k 0 ∧ refs.getD k 0 < h.cells.length then
           { readRef h (refs.getD j 0) with isActive := b }
         else readRef h (refs.getD j 0)) := by
  refine ⟨rfl, ?_⟩
  have hview : ∀ (hh : CellHeap),
      (engineCardView hh refs).getD j defaultCell = readRef hh (refs.getD j 0) := by
    intro hh
    rw [engineCardView]
    induction refs generalizing j with
    | nil => simp at hj
    | cons hd tl ih =>
      cases j with
      | zero => rfl
      | succ m =>
        simp only [List.map_cons, List.getD]
        exact ih m (by simpa using hj)
  rw [hview, getCardRefs]
  rw [readRef, writeRefActive]
  by_cases heq : refs.getD j 0 = refs.getD k 0
  · rw [heq]
    by_cases hlt : refs.getD k 0 < h.cells.length
    · rw [if_pos ⟨rfl, hlt⟩]
      rw [show (⟨modifyCell h.cells (refs.getD k 0)
          (fun cell => { cell with isActive := b })⟩ : CellHeap).cells
        = modifyCell h.cells (refs.getD k 0)
          (fun cell => { cell with isActive := b }) from rfl]
      exact cardAt_modifyCell_self h.cells (refs.getD k 0) _ hlt
    · rw [if_neg (fun hc => hlt hc.2)]
      rw [show (⟨modifyCell h.cells (refs.getD k 0)
          (fun cell => { cell with isActive := b })⟩ : CellHeap).cells
        = modifyCell h.cells (refs.getD k 0)
          (fun cell => { cell with isActive := b }) from rfl]
      rw [modifyCell_oob h.cells _ _ (Nat.le_of_not_lt hlt)]
      rfl
  · rw [if_neg (fun hc => heq hc.1)]
    rw [show (⟨modifyCell h.cells (refs.getD k 0)
        (fun cell => { cell with isActive := b })⟩ : CellHeap).cells
      = modifyCell h.cells (refs.getD k 0)
        (fun cell => { cell with isActive := b }) from rfl]
    exact cardAt_modifyCell_ne h.cells _ _ _ heq

theorem claim_C7_amended_shallow_copy_witness :
    getCardRefs initialRefs = initialRefs ∧
    (engineCardView
        (writeRefActive initialHeap ((getCardRefs initialRefs).getD 0 0) true)
        initialRefs).getD 0 defaultCell
      = (if initialRefs.getD 0 0 = initialRefs.getD 0 0 ∧
            initialRefs.getD 0 0 < initialHeap.cells.length then
           { readRef initialHeap (initialRefs.getD 0 0) with isActive := true }
         else readRef initialHeap (initialRefs.getD 0 0)) :=
  claim_C7_amended_shallow_copy initialHeap initialRefs 0 0 true (by decide)

end BingoSim
